import Mathlib

set_option autoImplicit false

/- A shallow embedding of the monitoring core of the WireGuard gateway UI:
   the handshake duration parser and peer classification of
   app/services/wireguard_monitor.py, the reconnection gate of
   app/services/auto_reconnect.py, and the DDNS change detector of
   app/services/dns_resolver.py.  Strings from the Python sources are
   modelled as lists of characters, wall-clock instants as natural
   numbers counting seconds. -/

namespace WgGateway

/-- Whitespace test modelling Python `str.strip` / `str.split()`. -/
def isSpaceChar (c : Char) : Bool :=
  c == ' ' || c == '\t' || c == '\n' || c == '\r'

/-- ASCII decimal digit test; the numeral characters accepted by Python `int`. -/
def isDigitChar (c : Char) : Bool :=
  decide (48 ≤ c.toNat ∧ c.toNat ≤ 57)

/-- Python `str.strip()`: drop leading and trailing whitespace. -/
def pyStrip (l : List Char) : List Char :=
  ((l.dropWhile isSpaceChar).reverse.dropWhile isSpaceChar).reverse

/-- Python `str.startswith`: `startsWithSeq p l` holds when `p` is an
    initial segment of `l`. -/
def startsWithSeq : List Char → List Char → Bool
  | [], _ => true
  | _ :: _, [] => false
  | a :: p, b :: l => a == b && startsWithSeq p l

/-- Python substring containment (`pat in s`). -/
def containsSeq : List Char → List Char → Bool
  | p, [] => startsWithSeq p []
  | p, b :: l => startsWithSeq p (b :: l) || containsSeq p l

/-- Python `s.split(',')`. -/
def splitOnComma : List Char → List (List Char)
  | [] => [[]]
  | c :: rest =>
    if c = ',' then [] :: splitOnComma rest
    else
      match splitOnComma rest with
      | [] => [[c]]
      | h :: t => (c :: h) :: t

/-- Python `s.split(': ')`, used to cut `wg show` lines at each `: `. -/
def splitColonSpace : List Char → List (List Char)
  | [] => [[]]
  | [c] => [[c]]
  | c :: d :: rest =>
    if c = ':' ∧ d = ' ' then [] :: splitColonSpace rest
    else
      match splitColonSpace (d :: rest) with
      | [] => [[c]]
      | h :: t => (c :: h) :: t

/-- Index `[1]` of a Python list; `none` models the `IndexError`. -/
def elemOne {α : Type} : List α → Option α
  | _ :: x :: _ => some x
  | _ => none

/-- First whitespace-separated token, Python `s.split()[0]`; `none`
    models the `IndexError` on an all-space string. -/
def firstToken (l : List Char) : Option (List Char) :=
  let t := (l.dropWhile isSpaceChar).takeWhile (fun c => !isSpaceChar c)
  if t.isEmpty then none else some t

/-- Decimal value accumulator underlying `int(...)` on a digit string. -/
def digitsVal (l : List Char) : Nat :=
  l.foldl (fun a c => a * 10 + (c.toNat - 48)) 0

/-- Python `int(token)` restricted to the decimal numerals occurring in
    `wg show` output; `none` models the `ValueError` on other text. -/
def pyInt (l : List Char) : Option Nat :=
  if l.isEmpty then none
  else if l.all isDigitChar then some (digitsVal l)
  else none

/-- `int(s.split()[0])` as used by the handshake parser. -/
def tokenInt (l : List Char) : Option Nat :=
  match firstToken l with
  | none => none
  | some t => pyInt t

def nowWord : List Char := ['N', 'o', 'w']

def minuteWord : List Char := ['m', 'i', 'n', 'u', 't', 'e']

def secondWord : List Char := ['s', 'e', 'c', 'o', 'n', 'd']

def secondsAgo : List Char := ['s', 'e', 'c', 'o', 'n', 'd', 's', ' ', 'a', 'g', 'o']

def minutesAgo : List Char := ['m', 'i', 'n', 'u', 't', 'e', 's', ' ', 'a', 'g', 'o']

def hoursAgo : List Char := ['h', 'o', 'u', 'r', 's', ' ', 'a', 'g', 'o']

def daysAgo : List Char := ['d', 'a', 'y', 's', ' ', 'a', 'g', 'o']

/-- The comma branch of the handshake parser in
    `WireGuardMonitor.check_interface` (lines 74-83): strip each
    comma-separated part and accumulate minutes and seconds; `none`
    models a `ValueError` escaping to the inner handler. -/
def commaParts : List (List Char) → Nat → Option Nat
  | [], acc => some acc
  | p :: ps, acc =>
    let q := pyStrip p
    if containsSeq minuteWord q then
      match tokenInt q with
      | none => none
      | some m => commaParts ps (acc + m * 60)
    else if containsSeq secondWord q then
      match tokenInt q with
      | none => none
      | some s => commaParts ps (acc + s)
    else commaParts ps acc

/-- The relative-time duration parser embedded in
    `WireGuardMonitor.check_interface` (lines 62-94): given the text
    after `latest handshake: `, compute the elapsed seconds; `none`
    models a `ValueError`/`TypeError` caught at line 106. -/
def parseHandshakeDuration (s : List Char) : Option Nat :=
  if pyStrip s = nowWord then some 0
  else if containsSeq [','] s then commaParts (splitOnComma s) 0
  else if containsSeq secondsAgo s then tokenInt s
  else if containsSeq minutesAgo s then (tokenInt s).map (· * 60)
  else if containsSeq hoursAgo s then (tokenInt s).map (· * 3600)
  else if containsSeq daysAgo s then (tokenInt s).map (· * 86400)
  else some 0

/-- The decimal digit character of a value below ten. -/
def digitChar (n : Nat) : Char :=
  if n = 0 then '0' else if n = 1 then '1' else if n = 2 then '2'
  else if n = 3 then '3' else if n = 4 then '4' else if n = 5 then '5'
  else if n = 6 then '6' else if n = 7 then '7' else if n = 8 then '8'
  else '9'

/-- Standard decimal numeral of `n`: the spec-side rendering of the
    number appearing in a relative-time grammar string. -/
def natChars (n : Nat) : List Char :=
  if n < 10 then [digitChar n]
  else natChars (n / 10) ++ [digitChar (n % 10)]
termination_by n
decreasing_by omega

/-- Association-list model of a Python dict: first-match lookup. -/
def lookupA {α β : Type} [DecidableEq α] : List (α × β) → α → Option β
  | [], _ => none
  | (k, v) :: t, a => if k = a then some v else lookupA t a

/-- Association-list model of dict assignment: replace in place when the
    key is present (insertion order preserved), append otherwise. -/
def insertA {α β : Type} [DecidableEq α] : List (α × β) → α → β → List (α × β)
  | [], a, b => [(a, b)]
  | (k, v) :: t, a, b => if k = a then (a, b) :: t else (k, v) :: insertA t a b

/-- Association-list model of dict deletion (no-op on an absent key). -/
def deleteA {α β : Type} [DecidableEq α] : List (α × β) → α → List (α × β)
  | [], _ => []
  | (k, v) :: t, a => if k = a then deleteA t a else (k, v) :: deleteA t a

/- ===== WireGuardMonitor (app/services/wireguard_monitor.py) ===== -/

/-- `WireGuardMonitor.DISCONNECT_THRESHOLD` (30 minutes), in seconds. -/
def DISCONNECT_THRESHOLD : Nat := 1800

/-- `WireGuardMonitor.ALERT_COOLDOWN` (1 hour), in seconds. -/
def ALERT_COOLDOWN : Nat := 3600

def peerLinePat : List Char := ['p', 'e', 'e', 'r', ':', ' ']

def handshakeLinePat : List Char :=
  [' ', ' ', 'l', 'a', 't', 'e', 's', 't', ' ', 'h', 'a', 'n', 'd', 's',
   'h', 'a', 'k', 'e', ':']

/-- The outcome of one `wg show <interface>` invocation: `fail` covers a
    non-zero exit status (including a missing interface) and a raised
    exception, `ok` carries the stdout lines. -/
inductive WgShowResult : Type
  | fail : WgShowResult
  | ok : List (List Char) → WgShowResult

/-- The body of the line-scanning loop of
    `WireGuardMonitor.check_interface` (lines 52-108) for one line of
    `wg show` output, given the current peer and the peers map so far:
    `none` models an uncaught `IndexError` reaching the outer handler,
    `some` carries the updated current peer and peers map.  The two
    `datetime.now()` calls of lines 95 and 99 are modelled as a single
    instant, so a parsed elapsed duration `e` classifies the peer
    connected exactly when `e ≤ DISCONNECT_THRESHOLD` (line 100). -/
def checkLineStep (line : List Char) (cur : Option (List Char))
    (peers : List (List Char × Bool)) :
    Option (Option (List Char) × List (List Char × Bool)) :=
  if startsWithSeq peerLinePat line then
    match elemOne (splitColonSpace line) with
    | none => none
    | some p => some (some p, insertA peers p true)
  else if startsWithSeq handshakeLinePat line then
    match cur with
    | none => some (cur, peers)
    | some p =>
      if p = [] then some (cur, peers)
      else
        match elemOne (splitColonSpace line) with
        | none => none
        | some hs =>
          if hs = ['0'] then some (cur, peers)
          else
            match parseHandshakeDuration hs with
            | none => some (cur, peers)
            | some e =>
              some (cur, insertA peers p (decide (e ≤ DISCONNECT_THRESHOLD)))
  else some (cur, peers)

/-- The line-scanning loop of `WireGuardMonitor.check_interface`
    (lines 46-113), folding `checkLineStep` over the output lines. -/
def checkLines : List (List Char) → Option (List Char) →
    List (List Char × Bool) → Option (List (List Char × Bool))
  | [], _, peers => some peers
  | line :: rest, cur, peers =>
    match checkLineStep line cur peers with
    | none => none
    | some s => checkLines rest s.1 s.2

/-- `WireGuardMonitor.check_interface` (lines 23-117): an empty map on a
    failed status query or on an exception, the parsed peers map
    otherwise. -/
def check_interface (res : WgShowResult) : List (List Char × Bool) :=
  match res with
  | .fail => []
  | .ok lines =>
    match checkLines lines none [] with
    | none => []
    | some peers => peers

/-- `WireGuardMonitor.is_peer_connected` (lines 185-194): strict
    comparison of the elapsed time against the threshold. -/
def is_peer_connected (handshakes : List (List Char × Nat))
    (peer : List Char) (now : Nat) : Bool :=
  match lookupA handshakes peer with
  | none => false
  | some h => decide (now - h < DISCONNECT_THRESHOLD)

/-- Outcome of one `EmailService.send_alert` call: returned true,
    returned false, or raised. -/
inductive SendOutcome : Type
  | sent : SendOutcome
  | sendFailed : SendOutcome
  | sendRaised : SendOutcome
deriving DecidableEq

/-- The alert-gating loop of `WireGuardMonitor.check_and_alert`
    (lines 127-183): `peers` is the classification map produced by
    `check_interface`, `send` the Alert Dispatcher outcome per peer key,
    `la` the last-alert map.  Returns the dispatch attempts made and the
    updated last-alert map; only a `sent` outcome stores the timestamp
    (line 149). -/
def checkAndAlertLoop (send : List Char → SendOutcome) (now : Nat) :
    List (List Char × Bool) → List (List Char × Nat) →
    List (List Char × SendOutcome) × List (List Char × Nat)
  | [], la => ([], la)
  | (peer, isConn) :: rest, la =>
    if isConn then checkAndAlertLoop send now rest la
    else
      let gate : Bool :=
        match lookupA la peer with
        | none => true
        | some t => decide (now - t > ALERT_COOLDOWN)
      if gate then
        let la' :=
          match send peer with
          | .sent => insertA la peer now
          | _ => la
        let r := checkAndAlertLoop send now rest la'
        ((peer, send peer) :: r.1, r.2)
      else checkAndAlertLoop send now rest la

/-- One polling tick of `check_and_alert`: a wall-clock instant, the
    classifications observed, and the dispatcher behaviour. -/
structure AlertTick : Type where
  now : Nat
  peers : List (List Char × Bool)
  send : List Char → SendOutcome

/-- A sequence of `check_and_alert` ticks threading the last-alert map. -/
def runAlertTicks : List AlertTick → List (List Char × Nat) →
    List (List Char × SendOutcome) × List (List Char × Nat)
  | [], la => ([], la)
  | t :: ts, la =>
    let r₁ := checkAndAlertLoop t.send t.now t.peers la
    let r₂ := runAlertTicks ts r₁.2
    (r₁.1 ++ r₂.1, r₂.2)

/-- Successful dispatches for one peer among a list of dispatch attempts. -/
def sentCount (ds : List (List Char × SendOutcome)) (p : List Char) : Nat :=
  (ds.filter (fun d => d.1 == p && d.2 == SendOutcome.sent)).length

/- ===== AutoReconnectService (app/services/auto_reconnect.py) ===== -/

/-- `AutoReconnectService.MAX_RECONNECT_ATTEMPTS`. -/
def MAX_RECONNECT_ATTEMPTS : Nat := 3

/-- `AutoReconnectService.RECONNECT_COOLDOWN` (5 minutes), in seconds. -/
def RECONNECT_COOLDOWN : Nat := 300

/-- One entry of `AutoReconnectService._reconnection_attempts`: the keys
    of the per-client dict, absent keys modelled by `none`. -/
structure AttemptRecord : Type where
  count : Nat
  last_attempt : Option Nat
  last_success : Option Nat
deriving DecidableEq

/-- `AutoReconnectService._should_attempt_reconnection` (lines 55-83):
    the decision together with the stored record after the call (the
    count-reset branch of line 74 replaces the whole per-client dict,
    dropping any recorded success timestamp). -/
def shouldAttemptReconnection (r : Option AttemptRecord) (now : Nat) :
    Bool × Option AttemptRecord :=
  match r with
  | none => (true, none)
  | some a =>
    if a.count ≥ MAX_RECONNECT_ATTEMPTS then
      match a.last_attempt with
      | some la =>
        if now - la > RECONNECT_COOLDOWN then (true, some ⟨0, some now, none⟩)
        else (false, some a)
      | none => (false, some a)
    else
      match a.last_attempt with
      | some la =>
        if now - la < RECONNECT_COOLDOWN then (false, some a)
        else (true, some a)
      | none => (true, some a)

/-- `AutoReconnectService._update_reconnection_tracking` (lines 180-201). -/
def updateReconnectionTracking (m : List (String × AttemptRecord))
    (cid : String) (success : Bool) (now : Nat) :
    List (String × AttemptRecord) :=
  let a :=
    match lookupA m cid with
    | none => (⟨0, some now, none⟩ : AttemptRecord)
    | some a => a
  let a := { a with last_attempt := some now }
  let a :=
    if success then { a with count := 0, last_success := some now }
    else { a with count := a.count + 1 }
  insertA m cid a

/-- One entry of the map returned by
    `AutoReconnectService.get_reconnection_status` (the fields the
    claims refer to; `attempt_count` is read from the record object
    bound before the `can_reconnect` computation replaces it). -/
structure StatusEntry : Type where
  attempt_count : Nat
  last_attempt : Option Nat
  last_success : Option Nat
  can_reconnect : Bool
deriving DecidableEq

/-- The iteration of `AutoReconnectService.get_reconnection_status`
    (lines 203-226) over the client keys, threading the attempts map
    mutated by `_should_attempt_reconnection`. -/
def getReconnectionStatusLoop (now : Nat) : List String →
    List (String × AttemptRecord) →
    List (String × StatusEntry) × List (String × AttemptRecord)
  | [], m => ([], m)
  | cid :: rest, m =>
    match lookupA m cid with
    | none => getReconnectionStatusLoop now rest m
    | some a =>
      let r := shouldAttemptReconnection (some a) now
      let m₁ :=
        match r.2 with
        | some b => insertA m cid b
        | none => m
      let rec₂ := getReconnectionStatusLoop now rest m₁
      ((cid, ⟨a.count, a.last_attempt, a.last_success, r.1⟩) :: rec₂.1, rec₂.2)

/-- `AutoReconnectService.get_reconnection_status` (lines 203-226):
    status map and the attempts map left behind by the query. -/
def getReconnectionStatus (now : Nat) (m : List (String × AttemptRecord)) :
    List (String × StatusEntry) × List (String × AttemptRecord) :=
  getReconnectionStatusLoop now (m.map Prod.fst) m

/-- External calls and audit events of `_reconnect_client`, in order. -/
inductive ReconnectAction : Type
  | logAttempt : ReconnectAction
  | deactivateCall : ReconnectAction
  | sleepDelay : ReconnectAction
  | activateCall : ReconnectAction
  | statusUpdate : ReconnectAction
  | pingCall : ReconnectAction
  | logHandshake : ReconnectAction
  | logSuccess : ReconnectAction
  | logFailure : ReconnectAction
deriving DecidableEq

/-- Outcome of the best-effort probe step (5) of `_reconnect_client`
    (lines 124-157): ping answered, ping failed, no address found in the
    config, or the file read / ping raised (caught at line 156). -/
inductive ProbeOutcome : Type
  | answered : ProbeOutcome
  | noReply : ProbeOutcome
  | noAddress : ProbeOutcome
  | raised : ProbeOutcome
deriving DecidableEq

/-- `AutoReconnectService._reconnect_client` (lines 85-178): the boolean
    outcome and the trace of external calls.  `deactOk` and `actOk` are
    the success flags returned by the Tunnel Control collaborator. -/
def reconnectClient (deactOk actOk : Bool) (probe : ProbeOutcome) :
    Bool × List ReconnectAction :=
  if !deactOk then
    (false, [.logAttempt, .deactivateCall, .logFailure])
  else if !actOk then
    (false, [.logAttempt, .deactivateCall, .sleepDelay, .activateCall,
             .logFailure])
  else
    let probeTrace :=
      match probe with
      | .answered => [ReconnectAction.pingCall, ReconnectAction.logHandshake]
      | .noReply => [ReconnectAction.pingCall]
      | .noAddress => []
      | .raised => []
    (true, [.logAttempt, .deactivateCall, .sleepDelay, .activateCall,
            .statusUpdate] ++ probeTrace ++ [.logSuccess])

/- ===== DNSResolver (app/services/dns_resolver.py) ===== -/

/-- `DNSResolver.DNS_CHECK_INTERVAL` (5 minutes), in seconds. -/
def DNS_CHECK_INTERVAL : Nat := 300

/-- A change event emitted by `check_hostname_changes` (lines 142-148). -/
structure ChangeEvent : Type where
  client_id : String
  hostname : String
  previous_ip : String
  current_ip : String
  timestamp : Nat
deriving DecidableEq

/-- The two resolution caches of `DNSResolver`. -/
structure DnsCaches : Type where
  resolved_ips : List (String × String)
  last_checks : List (String × Nat)
deriving DecidableEq

/-- The full class-level state of `DNSResolver`: hostname registrations
    (hostname to client id), display names, and the caches. -/
structure DnsState : Type where
  client_hostnames : List (String × String)
  client_names : List (String × String)
  caches : DnsCaches
deriving DecidableEq

/-- One iteration of the loop in `DNSResolver.check_hostname_changes`
    (lines 125-153) for the registration `(hostname, client_id)`:
    `resolve` is the DNS oracle for this tick. -/
def processHostname (resolve : String → Option String) (now : Nat)
    (hostname client_id : String) (st : DnsCaches) :
    List ChangeEvent × DnsCaches :=
  let skip : Bool :=
    match lookupA st.last_checks hostname with
    | some lc => decide (now - lc < DNS_CHECK_INTERVAL)
    | none => false
  if skip then ([], st)
  else
    match resolve hostname with
    | none => ([], st)
    | some current_ip =>
      let evs :=
        match lookupA st.resolved_ips hostname with
        | some prev =>
          if prev ≠ current_ip then
            [⟨client_id, hostname, prev, current_ip, now⟩]
          else []
        | none => []
      (evs, ⟨insertA st.resolved_ips hostname current_ip,
             insertA st.last_checks hostname now⟩)

/-- The loop of `check_hostname_changes` over all registrations. -/
def checkHostnameChangesLoop (resolve : String → Option String) (now : Nat) :
    List (String × String) → DnsCaches → List ChangeEvent × DnsCaches
  | [], st => ([], st)
  | (h, c) :: rest, st =>
    let r₁ := processHostname resolve now h c st
    let r₂ := checkHostnameChangesLoop resolve now rest r₁.2
    (r₁.1 ++ r₂.1, r₂.2)

/-- `DNSResolver.check_hostname_changes` (lines 116-155). -/
def check_hostname_changes (resolve : String → Option String) (now : Nat)
    (st : DnsState) : List ChangeEvent × DnsState :=
  let r := checkHostnameChangesLoop resolve now st.client_hostnames st.caches
  (r.1, { st with caches := r.2 })

/-- `DNSResolver.unregister_client_hostname` (lines 83-105): collect the
    hostnames mapped to the client, delete each from the registrations
    and from both caches, and drop the display name. -/
def unregister_client_hostname (st : DnsState) (cid : String) : DnsState :=
  let toRemove :=
    (st.client_hostnames.filter (fun p => p.2 == cid)).map Prod.fst
  { client_hostnames :=
      toRemove.foldl (fun m h => deleteA m h) st.client_hostnames
    client_names := deleteA st.client_names cid
    caches :=
      ⟨toRemove.foldl (fun m h => deleteA m h) st.caches.resolved_ips,
       toRemove.foldl (fun m h => deleteA m h) st.caches.last_checks⟩ }

/- ===== Supporting lemmas: digits and numerals ===== -/

theorem digitChar_digit (n : Nat) : isDigitChar (digitChar n) = true := by
  unfold digitChar
  split_ifs <;> decide

theorem digitChar_val (n : Nat) (h : n < 10) : (digitChar n).toNat - 48 = n := by
  interval_cases n <;> decide

theorem natChars_ne_nil (n : Nat) : natChars n ≠ [] := by
  rw [natChars]
  split
  · simp
  · simp

theorem natChars_all_digit (n : Nat) : (natChars n).all isDigitChar = true := by
  induction n using Nat.strong_induction_on with
  | _ n ih =>
    rw [natChars]
    split
    · simp [digitChar_digit]
    · rename_i h
      rw [List.all_append]
      have := ih (n / 10) (Nat.div_lt_self (by omega) (by omega))
      simp [this, digitChar_digit]

theorem digitsVal_natChars (n : Nat) : digitsVal (natChars n) = n := by
  induction n using Nat.strong_induction_on with
  | _ n ih =>
    rw [natChars]
    split
    · rename_i h
      simp [digitsVal, digitChar_val n h]
    · rename_i h
      have hlt : n / 10 < n := Nat.div_lt_self (by omega) (by omega)
      have hval := digitChar_val (n % 10) (Nat.mod_lt n (by omega))
      unfold digitsVal at ih ⊢
      rw [List.foldl_append, ih (n / 10) hlt]
      simp only [List.foldl_cons, List.foldl_nil, hval]
      omega

theorem pyInt_natChars (n : Nat) : pyInt (natChars n) = some n := by
  unfold pyInt
  rw [if_neg, if_pos (natChars_all_digit n), digitsVal_natChars]
  simp [List.isEmpty_iff, natChars_ne_nil]

theorem digit_toNat {c : Char} (h : isDigitChar c = true) :
    48 ≤ c.toNat ∧ c.toNat ≤ 57 := by
  unfold isDigitChar at h
  exact of_decide_eq_true h

theorem digit_ne {c d : Char} (h : isDigitChar c = true)
    (hd : d.toNat < 48 ∨ 57 < d.toNat) : c ≠ d := by
  intro he
  subst he
  have := digit_toNat h
  omega

theorem digit_not_space {c : Char} (h : isDigitChar c = true) :
    isSpaceChar c = false := by
  unfold isSpaceChar
  have h1 : c ≠ ' ' := digit_ne h (by decide)
  have h2 : c ≠ '\t' := digit_ne h (by decide)
  have h3 : c ≠ '\n' := digit_ne h (by decide)
  have h4 : c ≠ '\r' := digit_ne h (by decide)
  simp [h1, h2, h3, h4]

theorem digit_ne_comma {c : Char} (h : isDigitChar c = true) : c ≠ ',' :=
  digit_ne h (by decide)

theorem digit_ne_colon {c : Char} (h : isDigitChar c = true) : c ≠ ':' :=
  digit_ne h (by decide)

/- ===== Supporting lemmas: substring containment and splitting ===== -/

theorem startsWithSeq_self_append (p r : List Char) :
    startsWithSeq p (p ++ r) = true := by
  induction p with
  | nil => rfl
  | cons a p ih => simp [startsWithSeq, ih]

theorem containsSeq_of_startsWith {p l : List Char}
    (h : startsWithSeq p l = true) : containsSeq p l = true := by
  cases l with
  | nil => exact h
  | cons b t => simp [containsSeq, h]

theorem containsSeq_append_right {p l₂ : List Char} (l₁ : List Char)
    (h : containsSeq p l₂ = true) : containsSeq p (l₁ ++ l₂) = true := by
  induction l₁ with
  | nil => simpa using h
  | cons a l ih => simp [containsSeq, ih]

theorem containsSeq_mid (x p r : List Char) :
    containsSeq p (x ++ (p ++ r)) = true :=
  containsSeq_append_right x
    (containsSeq_of_startsWith (startsWithSeq_self_append p r))

theorem containsSeq_skip {p t : List Char} {f : Char → Bool}
    (d : List Char) (hd : d.all f = true)
    (hp : ∃ c q, p = c :: q ∧ f c = false) :
    containsSeq p (d ++ t) = containsSeq p t := by
  obtain ⟨c, q, rfl, hc⟩ := hp
  induction d with
  | nil => rfl
  | cons a d ih =>
    rw [List.all_cons, Bool.and_eq_true] at hd
    have hca : (c == a) = false := by
      refine beq_eq_false_iff_ne.mpr ?_
      intro he
      rw [he, hd.1] at hc
      cases hc
    simp [containsSeq, startsWithSeq, hca, ih hd.2]

theorem containsSeq_single_cons (x c : Char) (l : List Char) :
    containsSeq [x] (c :: l) = ((x == c) || containsSeq [x] l) := by
  simp [containsSeq, startsWithSeq]

theorem splitOnComma_no {b : List Char} (hb : containsSeq [','] b = false) :
    splitOnComma b = [b] := by
  induction b with
  | nil => rfl
  | cons c rest ih =>
    rw [containsSeq_single_cons, Bool.or_eq_false_iff] at hb
    have hc : ¬ c = ',' := fun he => by
      rw [he] at hb
      simp at hb
    rw [splitOnComma, if_neg hc, ih hb.2]

theorem splitOnComma_append {a : List Char} (b : List Char)
    (ha : containsSeq [','] a = false) :
    splitOnComma (a ++ ',' :: b) = a :: splitOnComma b := by
  induction a with
  | nil => simp [splitOnComma]
  | cons c a ih =>
    rw [containsSeq_single_cons, Bool.or_eq_false_iff] at ha
    have hc : ¬ c = ',' := fun he => by
      rw [he] at ha
      simp at ha
    rw [List.cons_append, splitOnComma, if_neg hc, ih ha.2]

theorem containsSeq_colonSpace_cons (c : Char) (l : List Char) :
    containsSeq [':', ' '] (c :: l) =
      ((c == ':' && startsWithSeq [' '] l) || containsSeq [':', ' '] l) := by
  simp [containsSeq, startsWithSeq, Bool.and_assoc]
  cases h : (':' == c)
  · have : ¬ c = ':' := fun he => by rw [he] at h; simp at h
    simp [beq_eq_false_iff_ne.mpr this]
  · have : c = ':' := (beq_iff_eq.mp h).symm
    simp [this]

theorem splitColonSpace_no {b : List Char}
    (hb : containsSeq [':', ' '] b = false) : splitColonSpace b = [b] := by
  induction b with
  | nil => rfl
  | cons c rest ih =>
    rw [containsSeq_colonSpace_cons, Bool.or_eq_false_iff] at hb
    cases rest with
    | nil => rfl
    | cons d r =>
      have hcd : ¬ (c = ':' ∧ d = ' ') := by
        rintro ⟨rfl, rfl⟩
        simp [startsWithSeq] at hb
      rw [splitColonSpace, if_neg hcd, ih hb.2]

theorem splitColonSpace_append {a : List Char} (b : List Char)
    (ha : containsSeq [':', ' '] a = false) :
    splitColonSpace (a ++ ':' :: ' ' :: b) = a :: splitColonSpace b := by
  induction a with
  | nil => simp [splitColonSpace]
  | cons c a ih =>
    rw [containsSeq_colonSpace_cons, Bool.or_eq_false_iff] at ha
    cases a with
    | nil =>
      have hc : ¬ (c = ':' ∧ (':' : Char) = ' ') := by rintro ⟨_, h⟩; cases h
      have hsp : splitColonSpace (':' :: ' ' :: b) = [] :: splitColonSpace b := by
        rw [splitColonSpace]
        simp
      rw [List.cons_append, List.nil_append, splitColonSpace, if_neg hc, hsp]
    | cons e a₂ =>
      have hce : ¬ (c = ':' ∧ e = ' ') := by
        rintro ⟨rfl, rfl⟩
        simp [startsWithSeq] at ha
      rw [List.cons_append, List.cons_append, splitColonSpace.eq_3, if_neg hce]
      rw [List.cons_append] at ih
      rw [ih ha.2]

/- ===== Supporting lemmas: tokens and stripping ===== -/

theorem dropWhile_cons_of_false {p : Char → Bool} {a : Char} (l : List Char)
    (h : p a = false) : (a :: l).dropWhile p = a :: l := by
  simp [List.dropWhile_cons, h]

theorem takeWhile_append_stop {q : Char → Bool} {d : List Char} {x : Char}
    (r : List Char) (hd : d.all q = true) (hx : q x = false) :
    (d ++ x :: r).takeWhile q = d := by
  induction d with
  | nil => simp [List.takeWhile_cons, hx]
  | cons a d ih =>
    rw [List.all_cons, Bool.and_eq_true] at hd
    rw [List.cons_append]
    simp [List.takeWhile_cons, hd.1, ih hd.2]

theorem all_not_space_of_digits {d : List Char}
    (hd : d.all isDigitChar = true) :
    d.all (fun c => !isSpaceChar c) = true := by
  rw [List.all_eq_true] at hd ⊢
  intro x hx
  simp [digit_not_space (hd x hx)]

theorem firstToken_digits_space {d : List Char} (r : List Char)
    (hd : d.all isDigitChar = true) (hne : d ≠ []) :
    firstToken (d ++ ' ' :: r) = some d := by
  cases d with
  | nil => exact absurd rfl hne
  | cons a d' =>
    have hq := all_not_space_of_digits hd
    have ha : isDigitChar a = true := by
      rw [List.all_cons, Bool.and_eq_true] at hd
      exact hd.1
    simp only [firstToken]
    rw [List.cons_append, dropWhile_cons_of_false _ (digit_not_space ha),
      ← List.cons_append, takeWhile_append_stop r hq (by decide)]
    simp

theorem tokenInt_digits_space {d : List Char} (r : List Char)
    (hd : d.all isDigitChar = true) (hne : d ≠ []) :
    tokenInt (d ++ ' ' :: r) = pyInt d := by
  unfold tokenInt
  rw [firstToken_digits_space r hd hne]

theorem pyStrip_eq_self {a b : Char} {m : List Char}
    (ha : isSpaceChar a = false) (hb : isSpaceChar b = false) :
    pyStrip (a :: (m ++ [b])) = a :: (m ++ [b]) := by
  unfold pyStrip
  rw [dropWhile_cons_of_false _ ha]
  have hrev : (a :: (m ++ [b])).reverse = b :: (m.reverse ++ [a]) := by
    simp
  rw [hrev, dropWhile_cons_of_false _ hb, ← hrev, List.reverse_reverse]

theorem pyStrip_digit_head_tail {d t : List Char} {b : Char}
    (hd : d.all isDigitChar = true) (hne : d ≠ [])
    (ht : ∃ m, t = m ++ [b]) (hb : isSpaceChar b = false) :
    pyStrip (d ++ t) = d ++ t := by
  cases d with
  | nil => exact absurd rfl hne
  | cons a d' =>
    obtain ⟨m, rfl⟩ := ht
    have ha : isDigitChar a = true := by
      rw [List.all_cons, Bool.and_eq_true] at hd
      exact hd.1
    have h2 : a :: d' ++ (m ++ [b]) = a :: ((d' ++ m) ++ [b]) := by
      simp [List.append_assoc]
    rw [h2, pyStrip_eq_self (digit_not_space ha) hb]

theorem digits_append_ne_now {d t : List Char}
    (hd : d.all isDigitChar = true) (hne : d ≠ []) : d ++ t ≠ nowWord := by
  cases d with
  | nil => exact absurd rfl hne
  | cons a d' =>
    intro h
    rw [List.cons_append] at h
    have ha : isDigitChar a = true := by
      rw [List.all_cons, Bool.and_eq_true] at hd
      exact hd.1
    simp only [nowWord, List.cons.injEq] at h
    rw [h.1] at ha
    exact absurd ha (by decide)

/- ===== Supporting lemmas: the duration parser on grammar strings ===== -/

theorem parse_now : parseHandshakeDuration nowWord = some 0 := by decide

theorem parse_seconds (n : Nat) :
    parseHandshakeDuration (natChars n ++ ' ' :: secondsAgo) = some n := by
  have hd := natChars_all_digit n
  have hne := natChars_ne_nil n
  have hstrip : pyStrip (natChars n ++ ' ' :: secondsAgo) =
      natChars n ++ ' ' :: secondsAgo :=
    @pyStrip_digit_head_tail (natChars n) (' ' :: secondsAgo) 'o' hd hne
      ⟨[' ', 's', 'e', 'c', 'o', 'n', 'd', 's', ' ', 'a', 'g'], by decide⟩
      (by decide)
  have hcomma : containsSeq [','] (natChars n ++ ' ' :: secondsAgo) = false := by
    rw [containsSeq_skip (natChars n) hd ⟨',', [], rfl, by decide⟩]
    decide
  have hsec : containsSeq secondsAgo (natChars n ++ ' ' :: secondsAgo) = true := by
    have he : natChars n ++ ' ' :: secondsAgo =
        (natChars n ++ [' ']) ++ (secondsAgo ++ []) := by simp
    rw [he]
    exact containsSeq_mid _ _ _
  unfold parseHandshakeDuration
  rw [hstrip, if_neg (digits_append_ne_now hd hne), hcomma,
    if_neg Bool.false_ne_true, hsec, if_pos rfl,
    tokenInt_digits_space _ hd hne, pyInt_natChars]

theorem parse_minutes (n : Nat) :
    parseHandshakeDuration (natChars n ++ ' ' :: minutesAgo) = some (n * 60) := by
  have hd := natChars_all_digit n
  have hne := natChars_ne_nil n
  have hstrip : pyStrip (natChars n ++ ' ' :: minutesAgo) =
      natChars n ++ ' ' :: minutesAgo :=
    @pyStrip_digit_head_tail (natChars n) (' ' :: minutesAgo) 'o' hd hne
      ⟨[' ', 'm', 'i', 'n', 'u', 't', 'e', 's', ' ', 'a', 'g'], by decide⟩
      (by decide)
  have hcomma : containsSeq [','] (natChars n ++ ' ' :: minutesAgo) = false := by
    rw [containsSeq_skip (natChars n) hd ⟨',', [], rfl, by decide⟩]
    decide
  have hsec : containsSeq secondsAgo (natChars n ++ ' ' :: minutesAgo) = false := by
    rw [@containsSeq_skip secondsAgo (' ' :: minutesAgo) isDigitChar (natChars n) hd
      ⟨'s', _, rfl, by decide⟩]
    decide
  have hmin : containsSeq minutesAgo (natChars n ++ ' ' :: minutesAgo) = true := by
    have he : natChars n ++ ' ' :: minutesAgo =
        (natChars n ++ [' ']) ++ (minutesAgo ++ []) := by simp
    rw [he]
    exact containsSeq_mid _ _ _
  unfold parseHandshakeDuration
  rw [hstrip, if_neg (digits_append_ne_now hd hne), hcomma,
    if_neg Bool.false_ne_true, hsec, if_neg Bool.false_ne_true, hmin,
    if_pos rfl, tokenInt_digits_space _ hd hne, pyInt_natChars]
  rfl

theorem parse_hours (n : Nat) :
    parseHandshakeDuration (natChars n ++ ' ' :: hoursAgo) = some (n * 3600) := by
  have hd := natChars_all_digit n
  have hne := natChars_ne_nil n
  have hstrip : pyStrip (natChars n ++ ' ' :: hoursAgo) =
      natChars n ++ ' ' :: hoursAgo :=
    @pyStrip_digit_head_tail (natChars n) (' ' :: hoursAgo) 'o' hd hne
      ⟨[' ', 'h', 'o', 'u', 'r', 's', ' ', 'a', 'g'], by decide⟩ (by decide)
  have hcomma : containsSeq [','] (natChars n ++ ' ' :: hoursAgo) = false := by
    rw [containsSeq_skip (natChars n) hd ⟨',', [], rfl, by decide⟩]
    decide
  have hsec : containsSeq secondsAgo (natChars n ++ ' ' :: hoursAgo) = false := by
    rw [@containsSeq_skip secondsAgo (' ' :: hoursAgo) isDigitChar (natChars n) hd
      ⟨'s', _, rfl, by decide⟩]
    decide
  have hmin : containsSeq minutesAgo (natChars n ++ ' ' :: hoursAgo) = false := by
    rw [@containsSeq_skip minutesAgo (' ' :: hoursAgo) isDigitChar (natChars n) hd
      ⟨'m', _, rfl, by decide⟩]
    decide
  have hhour : containsSeq hoursAgo (natChars n ++ ' ' :: hoursAgo) = true := by
    have he : natChars n ++ ' ' :: hoursAgo =
        (natChars n ++ [' ']) ++ (hoursAgo ++ []) := by simp
    rw [he]
    exact containsSeq_mid _ _ _
  unfold parseHandshakeDuration
  rw [hstrip, if_neg (digits_append_ne_now hd hne), hcomma,
    if_neg Bool.false_ne_true, hsec, if_neg Bool.false_ne_true, hmin,
    if_neg Bool.false_ne_true, hhour, if_pos rfl,
    tokenInt_digits_space _ hd hne, pyInt_natChars]
  rfl

theorem parse_days (n : Nat) :
    parseHandshakeDuration (natChars n ++ ' ' :: daysAgo) = some (n * 86400) := by
  have hd := natChars_all_digit n
  have hne := natChars_ne_nil n
  have hstrip : pyStrip (natChars n ++ ' ' :: daysAgo) =
      natChars n ++ ' ' :: daysAgo :=
    @pyStrip_digit_head_tail (natChars n) (' ' :: daysAgo) 'o' hd hne
      ⟨[' ', 'd', 'a', 'y', 's', ' ', 'a', 'g'], by decide⟩ (by decide)
  have hcomma : containsSeq [','] (natChars n ++ ' ' :: daysAgo) = false := by
    rw [containsSeq_skip (natChars n) hd ⟨',', [], rfl, by decide⟩]
    decide
  have hsec : containsSeq secondsAgo (natChars n ++ ' ' :: daysAgo) = false := by
    rw [@containsSeq_skip secondsAgo (' ' :: daysAgo) isDigitChar (natChars n) hd
      ⟨'s', _, rfl, by decide⟩]
    decide
  have hmin : containsSeq minutesAgo (natChars n ++ ' ' :: daysAgo) = false := by
    rw [@containsSeq_skip minutesAgo (' ' :: daysAgo) isDigitChar (natChars n) hd
      ⟨'m', _, rfl, by decide⟩]
    decide
  have hhour : containsSeq hoursAgo (natChars n ++ ' ' :: daysAgo) = false := by
    rw [@containsSeq_skip hoursAgo (' ' :: daysAgo) isDigitChar (natChars n) hd
      ⟨'h', _, rfl, by decide⟩]
    decide
  have hday : containsSeq daysAgo (natChars n ++ ' ' :: daysAgo) = true := by
    have he : natChars n ++ ' ' :: daysAgo =
        (natChars n ++ [' ']) ++ (daysAgo ++ []) := by simp
    rw [he]
    exact containsSeq_mid _ _ _
  unfold parseHandshakeDuration
  rw [hstrip, if_neg (digits_append_ne_now hd hne), hcomma,
    if_neg Bool.false_ne_true, hsec, if_neg Bool.false_ne_true, hmin,
    if_neg Bool.false_ne_true, hhour, if_neg Bool.false_ne_true, hday,
    if_pos rfl, tokenInt_digits_space _ hd hne, pyInt_natChars]
  rfl

theorem pyStrip_cons_space (l : List Char) : pyStrip (' ' :: l) = pyStrip l := by
  have hsp : isSpaceChar ' ' = true := by decide
  unfold pyStrip
  simp [List.dropWhile_cons, hsp]

theorem parse_min_sec (m n : Nat) (w : List Char)
    (hw : w = minuteWord ∨ w = minuteWord ++ ['s']) :
    parseHandshakeDuration
      (natChars m ++ (' ' :: w) ++
        (',' :: ' ' :: (natChars n ++ (' ' :: secondsAgo)))) =
      some (m * 60 + n) := by
  have hdm := natChars_all_digit m
  have hnem := natChars_ne_nil m
  have hdn := natChars_all_digit n
  have hnen := natChars_ne_nil n
  have hwtail : (' ' :: w) ++ (',' :: ' ' :: (natChars n ++ (' ' :: secondsAgo))) =
      ((' ' :: w) ++ (',' :: ' ' :: (natChars n ++
        [' ', 's', 'e', 'c', 'o', 'n', 'd', 's', ' ', 'a', 'g']))) ++ ['o'] := by
    simp [secondsAgo]
  have hnow : pyStrip (natChars m ++ (' ' :: w) ++
      (',' :: ' ' :: (natChars n ++ (' ' :: secondsAgo)))) ≠ nowWord := by
    rw [List.append_assoc, pyStrip_digit_head_tail hdm hnem ⟨_, hwtail⟩ (by decide)]
    exact digits_append_ne_now hdm hnem
  have hwcomma : containsSeq [','] (' ' :: w) = false := by
    rcases hw with rfl | rfl <;> decide
  have hAnc : containsSeq [','] (natChars m ++ (' ' :: w)) = false := by
    rw [containsSeq_skip (natChars m) hdm ⟨',', [], rfl, by decide⟩]
    exact hwcomma
  have hBnc : containsSeq [',']
      (' ' :: (natChars n ++ (' ' :: secondsAgo))) = false := by
    rw [containsSeq_single_cons]
    have h2 : containsSeq [','] (natChars n ++ (' ' :: secondsAgo)) = false := by
      rw [containsSeq_skip (natChars n) hdn ⟨',', [], rfl, by decide⟩]
      decide
    rw [h2]
    decide
  have hcomma : containsSeq [','] (natChars m ++ (' ' :: w) ++
      (',' :: ' ' :: (natChars n ++ (' ' :: secondsAgo)))) = true :=
    containsSeq_mid (natChars m ++ (' ' :: w)) [',']
      (' ' :: (natChars n ++ (' ' :: secondsAgo)))
  have hsplit : splitOnComma (natChars m ++ (' ' :: w) ++
      (',' :: ' ' :: (natChars n ++ (' ' :: secondsAgo)))) =
      [natChars m ++ (' ' :: w),
       ' ' :: (natChars n ++ (' ' :: secondsAgo))] := by
    rw [splitOnComma_append _ hAnc, splitOnComma_no hBnc]
  have hstripA : pyStrip (natChars m ++ (' ' :: w)) = natChars m ++ (' ' :: w) := by
    rcases hw with rfl | rfl
    · exact @pyStrip_digit_head_tail (natChars m) (' ' :: minuteWord) 'e'
        hdm hnem ⟨[' ', 'm', 'i', 'n', 'u', 't'], by decide⟩ (by decide)
    · exact @pyStrip_digit_head_tail (natChars m) (' ' :: (minuteWord ++ ['s'])) 's'
        hdm hnem ⟨[' ', 'm', 'i', 'n', 'u', 't', 'e'], by decide⟩ (by decide)
  have hminA : containsSeq minuteWord (natChars m ++ (' ' :: w)) = true := by
    obtain ⟨r, rfl⟩ : ∃ r, w = minuteWord ++ r := by
      rcases hw with rfl | rfl
      · exact ⟨[], by simp⟩
      · exact ⟨['s'], rfl⟩
    have he : natChars m ++ (' ' :: (minuteWord ++ r)) =
        (natChars m ++ [' ']) ++ (minuteWord ++ r) := by simp
    rw [he]
    exact containsSeq_mid _ _ _
  have htokA : tokenInt (natChars m ++ (' ' :: w)) = some m := by
    rw [tokenInt_digits_space _ hdm hnem, pyInt_natChars]
  have hstripB : pyStrip (' ' :: (natChars n ++ (' ' :: secondsAgo))) =
      natChars n ++ (' ' :: secondsAgo) := by
    rw [pyStrip_cons_space]
    exact @pyStrip_digit_head_tail (natChars n) (' ' :: secondsAgo) 'o' hdn hnen
      ⟨[' ', 's', 'e', 'c', 'o', 'n', 'd', 's', ' ', 'a', 'g'], by decide⟩
      (by decide)
  have hminB : containsSeq minuteWord (natChars n ++ (' ' :: secondsAgo)) = false := by
    rw [@containsSeq_skip minuteWord (' ' :: secondsAgo) isDigitChar (natChars n)
      hdn ⟨'m', _, rfl, by decide⟩]
    decide
  have hsecB : containsSeq secondWord (natChars n ++ (' ' :: secondsAgo)) = true := by
    have he : natChars n ++ (' ' :: secondsAgo) =
        (natChars n ++ [' ']) ++ (secondWord ++ ['s', ' ', 'a', 'g', 'o']) := by
      simp [secondsAgo, secondWord]
    rw [he]
    exact containsSeq_mid _ _ _
  have htokB : tokenInt (natChars n ++ (' ' :: secondsAgo)) = some n := by
    rw [tokenInt_digits_space _ hdn hnen, pyInt_natChars]
  unfold parseHandshakeDuration
  rw [if_neg hnow, hcomma, if_pos rfl, hsplit]
  simp only [commaParts, hstripA, hminA, htokA, hstripB, hminB, hsecB, htokB,
    if_true, Bool.false_eq_true, if_false]
  congr 1
  omega

/- ===== Claim C1 ===== -/

/-- C1, counterexample: the claim includes singular-unit forms such as
    `"1 minute ago"`, but no single-unit branch of the parser matches a
    singular unit word, so the computed duration is 0, not 60. -/
theorem C1_singular_form_counterexample :
    parseHandshakeDuration
      ['1', ' ', 'm', 'i', 'n', 'u', 't', 'e', ' ', 'a', 'g', 'o'] = some 0 ∧
    parseHandshakeDuration
      ['1', ' ', 'm', 'i', 'n', 'u', 't', 'e', ' ', 'a', 'g', 'o'] ≠ some 60 := by
  constructor
  · decide
  · decide

/-- C1, amended: the handshake duration parser of `check_interface` maps
    `"Now"` to 0, every plural single-unit string `"<N> seconds ago"`,
    `"<N> minutes ago"`, `"<N> hours ago"`, `"<N> days ago"` (any N ≥ 1)
    to the exact elapsed-second count, and every comma-joined
    minutes+seconds string (singular or plural minute word) to
    60*minutes + seconds; singular single-unit strings such as
    `"1 minute ago"` match no unit branch and yield 0. -/
theorem C1_duration_parser_grammar :
    parseHandshakeDuration nowWord = some 0 ∧
    (∀ n : Nat, 1 ≤ n →
      parseHandshakeDuration (natChars n ++ ' ' :: secondsAgo) = some n ∧
      parseHandshakeDuration (natChars n ++ ' ' :: minutesAgo) = some (n * 60) ∧
      parseHandshakeDuration (natChars n ++ ' ' :: hoursAgo) = some (n * 3600) ∧
      parseHandshakeDuration (natChars n ++ ' ' :: daysAgo) = some (n * 86400)) ∧
    (∀ m n : Nat, 1 ≤ m → 1 ≤ n →
      ∀ w, (w = minuteWord ∨ w = minuteWord ++ ['s']) →
      parseHandshakeDuration
        (natChars m ++ (' ' :: w) ++
          (',' :: ' ' :: (natChars n ++ (' ' :: secondsAgo)))) =
        some (m * 60 + n)) ∧
    parseHandshakeDuration
      ['1', ' ', 'm', 'i', 'n', 'u', 't', 'e', ' ', 'a', 'g', 'o'] = some 0 :=
  ⟨parse_now,
   fun n _ => ⟨parse_seconds n, parse_minutes n, parse_hours n, parse_days n⟩,
   fun m n _ _ w hw => parse_min_sec m n w hw,
   by decide⟩

/-- C1 witness: the grammar theorem applied at the spec examples
    `"105 seconds ago"` and `"1 minute, 45 seconds ago"`. -/
theorem C1_duration_parser_grammar_witness :
    parseHandshakeDuration (natChars 105 ++ ' ' :: secondsAgo) = some 105 ∧
    parseHandshakeDuration
      (natChars 1 ++ (' ' :: minuteWord) ++
        (',' :: ' ' :: (natChars 45 ++ (' ' :: secondsAgo)))) = some 105 :=
  ⟨(C1_duration_parser_grammar.2.1 105 (by decide)).1,
   C1_duration_parser_grammar.2.2.1 1 45 (by decide) (by decide) minuteWord
     (Or.inl rfl)⟩

/- ===== Supporting lemmas: association lists ===== -/

theorem lookupA_insertA_self {α β : Type} [DecidableEq α]
    (l : List (α × β)) (a : α) (b : β) :
    lookupA (insertA l a b) a = some b := by
  induction l with
  | nil => simp [insertA, lookupA]
  | cons kv t ih =>
    obtain ⟨k, v⟩ := kv
    by_cases h : k = a
    · simp [insertA, h, lookupA]
    · simp [insertA, h, lookupA, ih]

theorem lookupA_insertA_ne {α β : Type} [DecidableEq α]
    (l : List (α × β)) (a x : α) (b : β) (h : ¬ x = a) :
    lookupA (insertA l a b) x = lookupA l x := by
  have ha : ¬ a = x := fun he => h he.symm
  induction l with
  | nil => simp [insertA, lookupA, ha]
  | cons kv t ih =>
    obtain ⟨k, v⟩ := kv
    by_cases hk : k = a
    · subst hk
      simp [insertA, lookupA, ha]
    · simp [insertA, hk, lookupA, ih]

theorem startsWithSeq_false_of_head {a b : Char} (p l : List Char)
    (h : (a == b) = false) : startsWithSeq (a :: p) (b :: l) = false := by
  simp [startsWithSeq, h]

/- ===== Supporting lemmas: check_interface on a peer block ===== -/

theorem checkLines_peer_line (k : List Char) (rest : List (List Char))
    (cur : Option (List Char)) (peers : List (List Char × Bool))
    (hk : k ≠ []) (hkc : containsSeq [':', ' '] k = false) :
    checkLines ((peerLinePat ++ k) :: rest) cur peers =
      checkLines rest (some k) (insertA peers k true) := by
  have hstart : startsWithSeq peerLinePat (peerLinePat ++ k) = true :=
    startsWithSeq_self_append _ _
  have hsplit : splitColonSpace (peerLinePat ++ k) =
      [['p', 'e', 'e', 'r'], k] := by
    rw [show peerLinePat ++ k = ['p', 'e', 'e', 'r'] ++ ':' :: ' ' :: k from rfl,
      splitColonSpace_append k (by decide), splitColonSpace_no hkc]
  have hstep : checkLineStep (peerLinePat ++ k) cur peers =
      some (some k, insertA peers k true) := by
    unfold checkLineStep
    rw [hstart, if_pos rfl, hsplit]
    rfl
  rw [checkLines, hstep]

theorem checkLines_handshake_line (k hs : List Char) (rest : List (List Char))
    (peers : List (List Char × Bool)) (e : Nat)
    (hk : k ≠ []) (hhs : containsSeq [':', ' '] hs = false)
    (hhs0 : hs ≠ ['0']) (hpe : parseHandshakeDuration hs = some e) :
    checkLines ((handshakeLinePat ++ ' ' :: hs) :: rest) (some k) peers =
      checkLines rest (some k)
        (insertA peers k (decide (e ≤ DISCONNECT_THRESHOLD))) := by
  have hnotpeer : startsWithSeq peerLinePat (handshakeLinePat ++ ' ' :: hs)
      = false := by
    rw [show peerLinePat = 'p' :: ['e', 'e', 'r', ':', ' '] from rfl,
      show handshakeLinePat ++ ' ' :: hs =
        ' ' :: ([' ', 'l', 'a', 't', 'e', 's', 't', ' ', 'h', 'a', 'n', 'd',
          's', 'h', 'a', 'k', 'e', ':'] ++ ' ' :: hs) from rfl]
    exact startsWithSeq_false_of_head _ _ (by decide)
  have hisHs : startsWithSeq handshakeLinePat (handshakeLinePat ++ ' ' :: hs)
      = true := startsWithSeq_self_append _ _
  have hsplit : splitColonSpace (handshakeLinePat ++ ' ' :: hs) =
      [[' ', ' ', 'l', 'a', 't', 'e', 's', 't', ' ', 'h', 'a', 'n', 'd',
        's', 'h', 'a', 'k', 'e'], hs] := by
    rw [show handshakeLinePat ++ ' ' :: hs =
        [' ', ' ', 'l', 'a', 't', 'e', 's', 't', ' ', 'h', 'a', 'n', 'd',
         's', 'h', 'a', 'k', 'e'] ++ ':' :: ' ' :: hs from rfl,
      splitColonSpace_append hs (by decide), splitColonSpace_no hhs]
  have hstep : checkLineStep (handshakeLinePat ++ ' ' :: hs) (some k) peers =
      some (some k, insertA peers k (decide (e ≤ DISCONNECT_THRESHOLD))) := by
    unfold checkLineStep
    rw [hnotpeer, if_neg Bool.false_ne_true, hisHs, if_pos rfl]
    simp only [if_neg hk, hsplit, elemOne, if_neg hhs0, hpe]
  rw [checkLines, hstep]

theorem natChars_seconds_no_colonSpace (e : Nat) :
    containsSeq [':', ' '] (natChars e ++ ' ' :: secondsAgo) = false := by
  rw [containsSeq_skip (natChars e) (natChars_all_digit e)
    ⟨':', [' '], rfl, by decide⟩]
  decide

theorem natChars_seconds_ne_zero_str (e : Nat) :
    natChars e ++ ' ' :: secondsAgo ≠ ['0'] := by
  intro h
  have hl := congrArg List.length h
  have hpos : 0 < (natChars e).length :=
    List.length_pos.mpr (natChars_ne_nil e)
  simp [List.length_append, secondsAgo] at hl

/-- The classification computed by `check_interface` for one peer block
    whose handshake line reports an elapsed time of `e` seconds:
    inclusive comparison against `DISCONNECT_THRESHOLD`. -/
theorem check_interface_peer_block (k : List Char) (e : Nat)
    (hk : k ≠ []) (hkc : containsSeq [':', ' '] k = false) :
    check_interface (.ok [peerLinePat ++ k,
      handshakeLinePat ++ ' ' :: (natChars e ++ ' ' :: secondsAgo)]) =
      [(k, decide (e ≤ DISCONNECT_THRESHOLD))] := by
  rw [check_interface]
  rw [checkLines_peer_line k _ none [] hk hkc,
    checkLines_handshake_line k _ [] _ e hk
      (natChars_seconds_no_colonSpace e) (natChars_seconds_ne_zero_str e)
      (parse_seconds e)]
  simp [checkLines, insertA]

/- ===== Claim C5 ===== -/

/-- C5, counterexample: at an elapsed time exactly equal to
    `DISCONNECT_THRESHOLD`, `check_interface` (inclusive `<=`) reports
    connected but `is_peer_connected` (strict `<`) reports disconnected,
    so the two classifications do not agree at the boundary as the claim
    states. -/
theorem C5_boundary_counterexample :
    is_peer_connected [(['K'], 0)] ['K'] DISCONNECT_THRESHOLD = false ∧
    check_interface (.ok [['p', 'e', 'e', 'r', ':', ' ', 'K'],
      [' ', ' ', 'l', 'a', 't', 'e', 's', 't', ' ', 'h', 'a', 'n', 'd', 's',
       'h', 'a', 'k', 'e', ':', ' ', '1', '8', '0', '0', ' ', 's', 'e', 'c',
       'o', 'n', 'd', 's', ' ', 'a', 'g', 'o']]) = [(['K'], true)] := by
  constructor
  · decide
  · decide

/-- C5, amended: the per-peer classification inside `check_interface`
    maps an elapsed-since-handshake of at most `DISCONNECT_THRESHOLD` to
    connected and strictly greater to disconnected (boundary equality is
    connected); `is_peer_connected`, however, compares strictly, so at
    elapsed time exactly equal to the threshold it reports
    disconnected. -/
theorem C5_threshold_classification :
    (∀ (k : List Char) (e : Nat), k ≠ [] →
      containsSeq [':', ' '] k = false →
      check_interface (.ok [peerLinePat ++ k,
        handshakeLinePat ++ ' ' :: (natChars e ++ ' ' :: secondsAgo)]) =
        [(k, decide (e ≤ DISCONNECT_THRESHOLD))]) ∧
    (∀ (st : List (List Char × Nat)) (p : List Char) (h now : Nat),
      lookupA st p = some h →
      is_peer_connected st p now = decide (now - h < DISCONNECT_THRESHOLD)) :=
  ⟨fun k e hk hkc => check_interface_peer_block k e hk hkc,
   fun st p h now hl => by unfold is_peer_connected; rw [hl]⟩

/-- C5 witness: the amended classification theorem applied at a concrete
    peer block with a 7-second-old handshake and at a concrete stored
    handshake record. -/
theorem C5_threshold_classification_witness :
    check_interface (.ok [peerLinePat ++ ['K'],
      handshakeLinePat ++ ' ' :: (natChars 7 ++ ' ' :: secondsAgo)]) =
      [(['K'], decide (7 ≤ DISCONNECT_THRESHOLD))] ∧
    is_peer_connected [(['K'], 5)] ['K'] 100 =
      decide (100 - 5 < DISCONNECT_THRESHOLD) :=
  ⟨C5_threshold_classification.1 ['K'] 7 (by decide) (by decide),
   C5_threshold_classification.2 [(['K'], 5)] ['K'] 5 100 (by decide)⟩

/- ===== Claim C9 ===== -/

/-- C9: `check_interface` returns an empty map, not an error and not an
    explicit disconnected classification, whenever the status query
    fails or the interface does not exist; a non-empty peers map can
    only come from a successful query. -/
theorem C9_empty_on_failed_query :
    check_interface .fail = [] ∧
    (∀ res : WgShowResult, check_interface res ≠ [] →
      ∃ lines, res = .ok lines) := by
  refine ⟨rfl, ?_⟩
  intro res hne
  cases res with
  | fail => exact absurd rfl hne
  | ok lines => exact ⟨lines, rfl⟩

/-- C9 witness: a concrete non-empty result comes from a successful
    query. -/
theorem C9_empty_on_failed_query_witness :
    ∃ lines, WgShowResult.ok [['p', 'e', 'e', 'r', ':', ' ', 'K']] =
      WgShowResult.ok lines :=
  C9_empty_on_failed_query.2 (.ok [['p', 'e', 'e', 'r', ':', ' ', 'K']])
    (by decide)

/- ===== Claim C2 ===== -/

/-- C2: the reconnection gate allows a client with no attempt record;
    with a record, any call strictly within `RECONNECT_COOLDOWN` of the
    recorded last attempt is denied regardless of the count; and at
    `MAX_RECONNECT_ATTEMPTS` the gate opens exactly when the cooldown
    has fully elapsed, resetting the stored count to 0 (stamped with the
    current time), after which the reset record again denies any call
    strictly within the cooldown of the reset. -/
theorem C2_reconnection_gate :
    (∀ now : Nat, (shouldAttemptReconnection none now).1 = true) ∧
    (∀ (a : AttemptRecord) (la now : Nat), a.last_attempt = some la →
      now - la < RECONNECT_COOLDOWN →
      (shouldAttemptReconnection (some a) now).1 = false) ∧
    (∀ (a : AttemptRecord) (la now : Nat),
      a.count = MAX_RECONNECT_ATTEMPTS → a.last_attempt = some la →
      ((shouldAttemptReconnection (some a) now).1 = true ↔
        now - la > RECONNECT_COOLDOWN) ∧
      (now - la > RECONNECT_COOLDOWN →
        (shouldAttemptReconnection (some a) now).2 =
          some ⟨0, some now, none⟩ ∧
        ∀ t : Nat, t - now < RECONNECT_COOLDOWN →
          (shouldAttemptReconnection
            ((shouldAttemptReconnection (some a) now).2) t).1 = false)) := by
  refine ⟨fun now => rfl, ?_, ?_⟩
  · intro a la now hla hlt
    simp only [shouldAttemptReconnection, hla]
    split_ifs with hc hgt
    · omega
    · rfl
    · rfl
  · intro a la now hcnt hla
    have hge : a.count ≥ MAX_RECONNECT_ATTEMPTS := le_of_eq hcnt.symm
    simp only [shouldAttemptReconnection, hla, if_pos hge]
    constructor
    · constructor
      · intro h1
        by_cases hgt : now - la > RECONNECT_COOLDOWN
        · exact hgt
        · rw [if_neg hgt] at h1
          cases h1
      · intro hgt
        rw [if_pos hgt]
    · intro hgt
      rw [if_pos hgt]
      refine ⟨rfl, ?_⟩
      intro t ht
      simp only [shouldAttemptReconnection]
      rw [if_neg (by decide), if_pos ht]

/-- C2 witness: the gate theorem applied at a concrete exhausted record
    past its cooldown (allowed, resetting) and at a concrete record
    inside the cooldown (denied). -/
theorem C2_reconnection_gate_witness :
    (shouldAttemptReconnection (some ⟨3, some 0, none⟩) 301).1 = true ∧
    (shouldAttemptReconnection (some ⟨2, some 10, none⟩) 200).1 = false :=
  ⟨(C2_reconnection_gate.2.2 ⟨3, some 0, none⟩ 0 301 rfl rfl).1.mpr
      (by decide),
   C2_reconnection_gate.2.1 ⟨2, some 10, none⟩ 10 200 rfl (by decide)⟩

/- ===== Claim C6 ===== -/

/-- C6: after the tracking update for a reconnect attempt, a successful
    attempt leaves the client's count at 0 with both the last-attempt
    and last-success timestamps set to the attempt time; a failed
    attempt leaves the count exactly one greater than before (0 when no
    record existed) with the last-attempt timestamp recorded; and no
    other client's tracking state changes. -/
theorem C6_tracking_update (m : List (String × AttemptRecord)) (cid : String)
    (success : Bool) (now : Nat) :
    (success = true →
      lookupA (updateReconnectionTracking m cid success now) cid =
        some ⟨0, some now, some now⟩) ∧
    (success = false →
      lookupA (updateReconnectionTracking m cid success now) cid =
        some ⟨(match lookupA m cid with
               | some a => a.count
               | none => 0) + 1, some now,
              (match lookupA m cid with
               | some a => a.last_success
               | none => none)⟩) ∧
    (∀ other : String, ¬ other = cid →
      lookupA (updateReconnectionTracking m cid success now) other =
        lookupA m other) := by
  refine ⟨?_, ?_, ?_⟩
  · rintro rfl
    cases h : lookupA m cid <;>
      simp [updateReconnectionTracking, h, lookupA_insertA_self]
  · rintro rfl
    cases h : lookupA m cid <;>
      simp [updateReconnectionTracking, h, lookupA_insertA_self]
  · intro other hne
    cases h : lookupA m cid <;>
      simp [updateReconnectionTracking, h, lookupA_insertA_ne _ _ _ _ hne]

/-- C6 witness: the tracking-update theorem applied at a concrete map,
    for a failed attempt and for a successful one. -/
theorem C6_tracking_update_witness :
    lookupA (updateReconnectionTracking
      [("a", ⟨2, some 5, some 1⟩)] "a" false 9) "a" =
      some ⟨3, some 9, some 1⟩ ∧
    lookupA (updateReconnectionTracking
      [("a", ⟨2, some 5, some 1⟩)] "a" true 9) "a" =
      some ⟨0, some 9, some 9⟩ := by
  constructor
  · rw [(C6_tracking_update [("a", ⟨2, some 5, some 1⟩)] "a" false 9).2.1 rfl]
    decide
  · exact (C6_tracking_update [("a", ⟨2, some 5, some 1⟩)] "a" true 9).1 rfl

/- ===== Claim C7 ===== -/

/-- C7: `_reconnect_client` fails immediately when deactivation errors,
    never reaching the reactivation call; fails when reactivation errors,
    never marking the client active; and succeeds whenever both tunnel
    steps succeed, for every outcome of the best-effort probe stage
    (ping failed, ping raised, or no address extracted). -/
theorem C7_reconnect_outcome :
    (∀ (actOk : Bool) (probe : ProbeOutcome),
      (reconnectClient false actOk probe).1 = false ∧
      ReconnectAction.activateCall ∉ (reconnectClient false actOk probe).2) ∧
    (∀ probe : ProbeOutcome,
      (reconnectClient true false probe).1 = false ∧
      ReconnectAction.statusUpdate ∉ (reconnectClient true false probe).2) ∧
    (∀ probe : ProbeOutcome, (reconnectClient true true probe).1 = true) := by
  refine ⟨?_, ?_, ?_⟩
  · intro actOk probe
    exact ⟨rfl, by simp [reconnectClient]⟩
  · intro probe
    exact ⟨rfl, by simp [reconnectClient]⟩
  · intro probe
    cases probe <;> rfl

/-- C7 witness: the outcome theorem applied at concrete step results. -/
theorem C7_reconnect_outcome_witness :
    ((reconnectClient false true ProbeOutcome.answered).1 = false ∧
      ReconnectAction.activateCall ∉
        (reconnectClient false true ProbeOutcome.answered).2) ∧
    ((reconnectClient true false ProbeOutcome.raised).1 = false ∧
      ReconnectAction.statusUpdate ∉
        (reconnectClient true false ProbeOutcome.raised).2) ∧
    (reconnectClient true true ProbeOutcome.noReply).1 = true :=
  ⟨C7_reconnect_outcome.1 true ProbeOutcome.answered,
   C7_reconnect_outcome.2.1 ProbeOutcome.raised,
   C7_reconnect_outcome.2.2 ProbeOutcome.noReply⟩

/- ===== Supporting lemmas: the stored record left by the gate ===== -/

theorem should_snd_ne_none (a : AttemptRecord) (now : Nat) :
    (shouldAttemptReconnection (some a) now).2 ≠ none := by
  cases hla : a.last_attempt <;>
    simp only [shouldAttemptReconnection, hla] <;>
    split_ifs <;> simp

theorem should_snd_reset (a : AttemptRecord) (la now : Nat)
    (hc : a.count ≥ MAX_RECONNECT_ATTEMPTS) (hla : a.last_attempt = some la)
    (hgt : now - la > RECONNECT_COOLDOWN) :
    (shouldAttemptReconnection (some a) now).2 = some ⟨0, some now, none⟩ := by
  simp only [shouldAttemptReconnection, hla, if_pos hc, if_pos hgt]

theorem should_snd_id (a : AttemptRecord) (now : Nat)
    (h : ¬ (a.count ≥ MAX_RECONNECT_ATTEMPTS ∧
      ∃ la, a.last_attempt = some la ∧ now - la > RECONNECT_COOLDOWN)) :
    (shouldAttemptReconnection (some a) now).2 = some a := by
  cases hla : a.last_attempt with
  | none =>
    simp only [shouldAttemptReconnection, hla]
    split_ifs <;> rfl
  | some la =>
    simp only [shouldAttemptReconnection, hla]
    by_cases hc : a.count ≥ MAX_RECONNECT_ATTEMPTS
    · have hng : ¬ now - la > RECONNECT_COOLDOWN := fun hgt =>
        h ⟨hc, la, hla, hgt⟩
      rw [if_pos hc, if_neg hng]
    · rw [if_neg hc]
      split_ifs <;> rfl

theorem lookupA_mem_keys {α β : Type} [DecidableEq α] {l : List (α × β)}
    {a : α} {b : β} (h : lookupA l a = some b) : a ∈ l.map Prod.fst := by
  induction l with
  | nil => cases h
  | cons kv t ih =>
    obtain ⟨k, v⟩ := kv
    by_cases hk : k = a
    · subst hk
      simp
    · simp only [lookupA, if_neg hk] at h
      simp [ih h]

/- ===== Supporting lemmas: the status-query loop ===== -/

theorem getLoop_frame (now : Nat) (cid : String) :
    ∀ (keys : List String) (m : List (String × AttemptRecord)),
    cid ∉ keys →
    lookupA (getReconnectionStatusLoop now keys m).2 cid = lookupA m cid ∧
    lookupA (getReconnectionStatusLoop now keys m).1 cid = none := by
  intro keys
  induction keys with
  | nil => exact fun m _ => ⟨rfl, rfl⟩
  | cons k rest ih =>
    intro m h
    have hk : ¬ k = cid := fun he => h (he ▸ List.mem_cons_self k rest)
    have hrest : cid ∉ rest := fun hm => h (List.mem_cons_of_mem _ hm)
    cases hl : lookupA m k with
    | none =>
      simp only [getReconnectionStatusLoop, hl]
      exact ih m hrest
    | some a =>
      cases hr : (shouldAttemptReconnection (some a) now).2 with
      | none => exact absurd hr (should_snd_ne_none a now)
      | some b =>
        simp only [getReconnectionStatusLoop, hl, hr]
        constructor
        · rw [(ih (insertA m k b) hrest).1,
            lookupA_insertA_ne _ _ _ _ (fun he => hk he.symm)]
        · simp only [lookupA, if_neg hk]
          exact (ih (insertA m k b) hrest).2

theorem getLoop_at (now : Nat) (cid : String) :
    ∀ (keys : List String) (m : List (String × AttemptRecord))
      (a : AttemptRecord),
    keys.Nodup → cid ∈ keys → lookupA m cid = some a →
    lookupA (getReconnectionStatusLoop now keys m).1 cid =
      some ⟨a.count, a.last_attempt, a.last_success,
            (shouldAttemptReconnection (some a) now).1⟩ ∧
    lookupA (getReconnectionStatusLoop now keys m).2 cid =
      (shouldAttemptReconnection (some a) now).2 := by
  intro keys
  induction keys with
  | nil => intro m a _ hin; cases hin
  | cons k rest ih =>
    intro m a hnd hin hla
    by_cases hk : k = cid
    · subst hk
      have hnin : k ∉ rest := (List.nodup_cons.mp hnd).1
      cases hr : (shouldAttemptReconnection (some a) now).2 with
      | none => exact absurd hr (should_snd_ne_none a now)
      | some b =>
        simp only [getReconnectionStatusLoop, hla, hr]
        constructor
        · simp [lookupA]
        · rw [(getLoop_frame now k rest (insertA m k b) hnin).1,
            lookupA_insertA_self]
    · have hin2 : cid ∈ rest := by
        cases List.mem_cons.mp hin with
        | inl he => exact absurd he.symm hk
        | inr hm => exact hm
      have hnd2 : rest.Nodup := (List.nodup_cons.mp hnd).2
      cases hl : lookupA m k with
      | none =>
        simp only [getReconnectionStatusLoop, hl]
        exact ih m a hnd2 hin2 hla
      | some b =>
        cases hr : (shouldAttemptReconnection (some b) now).2 with
        | none => exact absurd hr (should_snd_ne_none b now)
        | some b2 =>
          simp only [getReconnectionStatusLoop, hl, hr]
          have hla2 : lookupA (insertA m k b2) cid = some a := by
            rw [lookupA_insertA_ne _ _ _ _ (fun he => hk he.symm)]
            exact hla
          constructor
          · simp only [lookupA, if_neg hk]
            exact (ih (insertA m k b2) a hnd2 hin2 hla2).1
          · exact (ih (insertA m k b2) a hnd2 hin2 hla2).2

/- ===== Claim C10 ===== -/

/-- C10: `get_reconnection_status` is not side-effect-free.  The
    reported entry is built from the record object bound before the
    `can_reconnect` computation, but computing `can_reconnect` runs
    `_should_attempt_reconnection`, which for a client at
    `MAX_RECONNECT_ATTEMPTS` whose last attempt is older than
    `RECONNECT_COOLDOWN` replaces the stored record by count 0 stamped
    with the query time; every other client's stored record is left
    unchanged by the query. -/
theorem C10_status_query_side_effect
    (m : List (String × AttemptRecord)) (now : Nat)
    (hnd : (m.map Prod.fst).Nodup)
    (cid : String) (a : AttemptRecord) (ha : lookupA m cid = some a)
    (hcnt : a.count ≤ MAX_RECONNECT_ATTEMPTS) :
    lookupA (getReconnectionStatus now m).1 cid =
      some ⟨a.count, a.last_attempt, a.last_success,
        (shouldAttemptReconnection (some a) now).1⟩ ∧
    (∀ la, a.count = MAX_RECONNECT_ATTEMPTS → a.last_attempt = some la →
      now - la > RECONNECT_COOLDOWN →
      lookupA (getReconnectionStatus now m).2 cid =
        some ⟨0, some now, none⟩) ∧
    ((∀ la, a.count = MAX_RECONNECT_ATTEMPTS → a.last_attempt = some la →
        now - la ≤ RECONNECT_COOLDOWN) →
      lookupA (getReconnectionStatus now m).2 cid = some a) := by
  have hmem : cid ∈ m.map Prod.fst := lookupA_mem_keys ha
  have hmain := getLoop_at now cid (m.map Prod.fst) m a hnd hmem ha
  refine ⟨hmain.1, ?_, ?_⟩
  · intro la hc hla hgt
    have h2 : lookupA (getReconnectionStatus now m).2 cid =
        (shouldAttemptReconnection (some a) now).2 := hmain.2
    rw [h2, should_snd_reset a la now (le_of_eq hc.symm) hla hgt]
  · intro hle
    have h2 : lookupA (getReconnectionStatus now m).2 cid =
        (shouldAttemptReconnection (some a) now).2 := hmain.2
    rw [h2, should_snd_id a now ?_]
    rintro ⟨hge, la, hla, hgt⟩
    have hceq : a.count = MAX_RECONNECT_ATTEMPTS := le_antisymm hcnt hge
    exact absurd (hle la hceq hla) (by omega)

/-- C10 witness: the side-effect theorem applied at a concrete two
    client map: the exhausted client past its cooldown is reset by the
    query, the other client's record is untouched. -/
theorem C10_status_query_side_effect_witness :
    lookupA (getReconnectionStatus 301
      [("a", ⟨3, some 0, some 2⟩), ("b", ⟨1, some 0, none⟩)]).2 "a" =
      some ⟨0, some 301, none⟩ ∧
    lookupA (getReconnectionStatus 301
      [("a", ⟨3, some 0, some 2⟩), ("b", ⟨1, some 0, none⟩)]).2 "b" =
      some ⟨1, some 0, none⟩ := by
  constructor
  · exact (C10_status_query_side_effect
      [("a", ⟨3, some 0, some 2⟩), ("b", ⟨1, some 0, none⟩)] 301
      (by decide) "a" ⟨3, some 0, some 2⟩ (by decide) (by decide)).2.1
      0 rfl rfl (by decide)
  · exact (C10_status_query_side_effect
      [("a", ⟨3, some 0, some 2⟩), ("b", ⟨1, some 0, none⟩)] 301
      (by decide) "b" ⟨1, some 0, none⟩ (by decide) (by decide)).2.2
      (fun la hc _ => absurd hc (by decide))

/- ===== Supporting lemmas: the hostname-change loop ===== -/

theorem processHostname_go (resolve : String → Option String) (now : Nat)
    (h c : String) (st : DnsCaches) (ip : String)
    (helig : ∀ lc, lookupA st.last_checks h = some lc →
      ¬ now - lc < DNS_CHECK_INTERVAL)
    (hres : resolve h = some ip) :
    processHostname resolve now h c st =
      ((match lookupA st.resolved_ips h with
        | some prev =>
          if prev ≠ ip then [⟨c, h, prev, ip, now⟩] else []
        | none => []),
       ⟨insertA st.resolved_ips h ip, insertA st.last_checks h now⟩) := by
  cases hlc : lookupA st.last_checks h with
  | none => simp [processHostname, hlc, hres]
  | some lc => simp [processHostname, hlc, hres, helig lc hlc]

theorem processHostname_frame (resolve : String → Option String) (now : Nat)
    (h c : String) (st : DnsCaches) (x : String) (hx : ¬ x = h) :
    lookupA (processHostname resolve now h c st).2.resolved_ips x =
      lookupA st.resolved_ips x ∧
    lookupA (processHostname resolve now h c st).2.last_checks x =
      lookupA st.last_checks x ∧
    ∀ e ∈ (processHostname resolve now h c st).1, e.hostname = h := by
  cases hlc : lookupA st.last_checks h with
  | some lc =>
    by_cases hskip : now - lc < DNS_CHECK_INTERVAL
    · simp [processHostname, hlc, hskip]
    · cases hres : resolve h with
      | none => simp [processHostname, hlc, hskip, hres]
      | some ip =>
        cases hprev : lookupA st.resolved_ips h with
        | none =>
          simp [processHostname, hlc, hskip, hres, hprev,
            lookupA_insertA_ne _ _ _ _ hx]
        | some prev =>
          by_cases hne : prev ≠ ip <;>
            simp [processHostname, hlc, hskip, hres, hprev, hne,
              lookupA_insertA_ne _ _ _ _ hx]
  | none =>
    cases hres : resolve h with
    | none => simp [processHostname, hlc, hres]
    | some ip =>
      cases hprev : lookupA st.resolved_ips h with
      | none =>
        simp [processHostname, hlc, hres, hprev,
          lookupA_insertA_ne _ _ _ _ hx]
      | some prev =>
        by_cases hne : prev ≠ ip <;>
          simp [processHostname, hlc, hres, hprev, hne,
            lookupA_insertA_ne _ _ _ _ hx]

theorem checkLoop_frame (resolve : String → Option String) (now : Nat)
    (x : String) :
    ∀ (regs : List (String × String)) (st : DnsCaches),
    (∀ p ∈ regs, ¬ p.1 = x) →
    lookupA (checkHostnameChangesLoop resolve now regs st).2.resolved_ips x =
      lookupA st.resolved_ips x ∧
    lookupA (checkHostnameChangesLoop resolve now regs st).2.last_checks x =
      lookupA st.last_checks x ∧
    ∀ e ∈ (checkHostnameChangesLoop resolve now regs st).1,
      ¬ e.hostname = x := by
  intro regs
  induction regs with
  | nil => exact fun st _ => ⟨rfl, rfl, by simp [checkHostnameChangesLoop]⟩
  | cons hc rest ih =>
    intro st hall
    obtain ⟨h, c⟩ := hc
    have hne : ¬ h = x := hall (h, c) (List.mem_cons_self _ _)
    have hxh : ¬ x = h := fun he => hne he.symm
    have hrest : ∀ p ∈ rest, ¬ p.1 = x :=
      fun p hp => hall p (List.mem_cons_of_mem _ hp)
    have hframe := processHostname_frame resolve now h c st x hxh
    have hih := ih (processHostname resolve now h c st).2 hrest
    simp only [checkHostnameChangesLoop]
    refine ⟨by rw [hih.1, hframe.1], by rw [hih.2.1, hframe.2.1], ?_⟩
    intro e he
    rw [List.mem_append] at he
    cases he with
    | inl h1 => rw [hframe.2.2 e h1]; exact hne
    | inr h2 => exact hih.2.2 e h2

theorem checkLoop_append (resolve : String → Option String) (now : Nat) :
    ∀ (l₁ l₂ : List (String × String)) (st : DnsCaches),
    (checkHostnameChangesLoop resolve now (l₁ ++ l₂) st).1 =
      (checkHostnameChangesLoop resolve now l₁ st).1 ++
        (checkHostnameChangesLoop resolve now l₂
          (checkHostnameChangesLoop resolve now l₁ st).2).1 ∧
    (checkHostnameChangesLoop resolve now (l₁ ++ l₂) st).2 =
      (checkHostnameChangesLoop resolve now l₂
        (checkHostnameChangesLoop resolve now l₁ st).2).2 := by
  intro l₁
  induction l₁ with
  | nil => exact fun l₂ st => ⟨rfl, rfl⟩
  | cons hc rest ih =>
    intro l₂ st
    obtain ⟨h, c⟩ := hc
    simp only [List.cons_append, checkHostnameChangesLoop, List.append_eq]
    have hih := ih l₂ (processHostname resolve now h c st).2
    rw [hih.1, hih.2, List.append_assoc]
    exact ⟨rfl, rfl⟩

theorem filter_hostname_nil (h : String) (E : List ChangeEvent)
    (hE : ∀ e ∈ E, ¬ e.hostname = h) :
    E.filter (fun e => e.hostname == h) = [] := by
  rw [List.filter_eq_nil_iff]
  intro a ha
  simp only [beq_iff_eq]
  exact hE a ha

/- ===== Claim C3 ===== -/

/-- C3: for a registered hostname that is eligible this tick (no stored
    last check, or one at least `DNS_CHECK_INTERVAL` old) and resolves
    successfully, `check_hostname_changes` emits a change event for it
    exactly when a stored previous address exists and differs from the
    resolved one — carrying that previous and the current address — and
    in every successful-resolution case it stores the resolved address
    and the current tick as the last check. -/
theorem C3_dns_change_detection
    (st : DnsState) (resolve : String → Option String) (now : Nat)
    (hnd : (st.client_hostnames.map Prod.fst).Nodup)
    (h c : String) (hreg : (h, c) ∈ st.client_hostnames)
    (helig : ∀ lc, lookupA st.caches.last_checks h = some lc →
      now - lc ≥ DNS_CHECK_INTERVAL)
    (ip : String) (hres : resolve h = some ip) :
    (check_hostname_changes resolve now st).1.filter
        (fun e => e.hostname == h) =
      (match lookupA st.caches.resolved_ips h with
       | some prev =>
         if prev ≠ ip then [⟨c, h, prev, ip, now⟩] else []
       | none => []) ∧
    lookupA (check_hostname_changes resolve now st).2.caches.resolved_ips h =
      some ip ∧
    lookupA (check_hostname_changes resolve now st).2.caches.last_checks h =
      some now := by
  obtain ⟨l₁, l₂, hsplit⟩ := List.append_of_mem hreg
  have hnd' := hnd
  rw [hsplit, List.map_append, List.map_cons] at hnd'
  obtain ⟨hnd1, hndr, hdisj⟩ := List.nodup_append.mp hnd'
  have h1 : ∀ p ∈ l₁, ¬ p.1 = h := by
    intro p hp he
    have hm : p.1 ∈ l₁.map Prod.fst := List.mem_map_of_mem Prod.fst hp
    rw [he] at hm
    exact hdisj hm (List.mem_cons_self _ _)
  have h2 : ∀ p ∈ l₂, ¬ p.1 = h := by
    intro p hp he
    have hm : p.1 ∈ l₂.map Prod.fst := List.mem_map_of_mem Prod.fst hp
    rw [he] at hm
    exact (List.nodup_cons.mp hndr).1 hm
  have hfr1 := checkLoop_frame resolve now h l₁ st.caches h1
  have helig1 : ∀ lc,
      lookupA (checkHostnameChangesLoop resolve now l₁
        st.caches).2.last_checks h = some lc →
      ¬ now - lc < DNS_CHECK_INTERVAL := by
    intro lc hlc
    rw [hfr1.2.1] at hlc
    have := helig lc hlc
    omega
  have hstep := processHostname_go resolve now h c
    (checkHostnameChangesLoop resolve now l₁ st.caches).2 ip helig1 hres
  have happ := checkLoop_append resolve now l₁ ((h, c) :: l₂) st.caches
  have hfr2 := checkLoop_frame resolve now h l₂
    ⟨insertA (checkHostnameChangesLoop resolve now l₁
        st.caches).2.resolved_ips h ip,
     insertA (checkHostnameChangesLoop resolve now l₁
        st.caches).2.last_checks h now⟩ h2
  simp only [check_hostname_changes, hsplit]
  rw [happ.1, happ.2]
  simp only [checkHostnameChangesLoop]
  rw [hstep]
  simp only
  refine ⟨?_, ?_, ?_⟩
  · rw [List.filter_append, List.filter_append,
      filter_hostname_nil h _ hfr1.2.2, filter_hostname_nil h _ hfr2.2.2,
      hfr1.1]
    cases hprev : lookupA st.caches.resolved_ips h with
    | none => simp
    | some prev =>
      by_cases hne : prev ≠ ip
      · simp [hne]
      · simp [hne]
  · rw [hfr2.1, lookupA_insertA_self]
  · rw [hfr2.2.1, lookupA_insertA_self]

/-- C3 witness: the change-detection theorem applied at a concrete state
    holding a stored address that differs from the freshly resolved
    one. -/
theorem C3_dns_change_detection_witness :
    (check_hostname_changes (fun _ => some "2.2.2.2") 400
      ⟨[("h", "cl")], [], ⟨[("h", "1.1.1.1")], [("h", 50)]⟩⟩).1.filter
        (fun e => e.hostname == "h") =
      [⟨"cl", "h", "1.1.1.1", "2.2.2.2", 400⟩] ∧
    lookupA ((check_hostname_changes (fun _ => some "2.2.2.2") 400
      ⟨[("h", "cl")], [], ⟨[("h", "1.1.1.1")], [("h", 50)]⟩⟩).2.caches.resolved_ips)
      "h" = some "2.2.2.2" := by
  have hmain := C3_dns_change_detection
    ⟨[("h", "cl")], [], ⟨[("h", "1.1.1.1")], [("h", 50)]⟩⟩
    (fun _ => some "2.2.2.2") 400 (by decide) "h" "cl" (by decide)
    (fun lc hlc => by
      simp [lookupA] at hlc
      simp only [DNS_CHECK_INTERVAL]
      omega)
    "2.2.2.2" rfl
  refine ⟨?_, hmain.2.1⟩
  rw [hmain.1]
  decide

/- ===== Supporting lemmas: deletion folds ===== -/

theorem lookupA_deleteA_self {α β : Type} [DecidableEq α]
    (l : List (α × β)) (a : α) : lookupA (deleteA l a) a = none := by
  induction l with
  | nil => rfl
  | cons kv t ih =>
    obtain ⟨k, v⟩ := kv
    by_cases hk : k = a
    · simp [deleteA, hk, ih]
    · simp [deleteA, hk, lookupA, ih]

theorem lookupA_deleteA_ne {α β : Type} [DecidableEq α]
    (l : List (α × β)) (a x : α) (h : ¬ x = a) :
    lookupA (deleteA l a) x = lookupA l x := by
  induction l with
  | nil => rfl
  | cons kv t ih =>
    obtain ⟨k, v⟩ := kv
    by_cases hk : k = a
    · subst hk
      have hkx : ¬ k = x := fun he => h he.symm
      simp [deleteA, lookupA, hkx, ih]
    · simp [deleteA, hk, lookupA, ih]

theorem lookupA_foldl_delete_none {α β : Type} [DecidableEq α] :
    ∀ (hs : List α) (m : List (α × β)) (x : α), lookupA m x = none →
    lookupA (hs.foldl (fun acc h => deleteA acc h) m) x = none := by
  intro hs
  induction hs with
  | nil => exact fun m x h => h
  | cons h hs ih =>
    intro m x hmx
    rw [List.foldl_cons]
    refine ih (deleteA m h) x ?_
    by_cases hx : x = h
    · subst hx
      exact lookupA_deleteA_self m x
    · rw [lookupA_deleteA_ne m h x hx]
      exact hmx

theorem lookupA_foldl_delete_mem {α β : Type} [DecidableEq α] :
    ∀ (hs : List α) (m : List (α × β)) (x : α), x ∈ hs →
    lookupA (hs.foldl (fun acc h => deleteA acc h) m) x = none := by
  intro hs
  induction hs with
  | nil => intro m x h; cases h
  | cons h hs ih =>
    intro m x hx
    rw [List.foldl_cons]
    by_cases hxh : x = h
    · subst hxh
      exact lookupA_foldl_delete_none hs (deleteA m x) x
        (lookupA_deleteA_self m x)
    · cases List.mem_cons.mp hx with
      | inl he => exact absurd he hxh
      | inr hm => exact ih (deleteA m h) x hm

theorem mem_deleteA {α β : Type} [DecidableEq α]
    {m : List (α × β)} {a : α} {p : α × β} (h : p ∈ deleteA m a) :
    p ∈ m ∧ ¬ p.1 = a := by
  induction m with
  | nil => cases h
  | cons kv t ih =>
    obtain ⟨k, v⟩ := kv
    by_cases hk : k = a
    · rw [deleteA, if_pos hk] at h
      exact ⟨List.mem_cons_of_mem _ (ih h).1, (ih h).2⟩
    · rw [deleteA, if_neg hk] at h
      cases List.mem_cons.mp h with
      | inl he =>
        subst he
        exact ⟨List.mem_cons_self _ _, hk⟩
      | inr hm => exact ⟨List.mem_cons_of_mem _ (ih hm).1, (ih hm).2⟩

theorem mem_foldl_delete {α β : Type} [DecidableEq α] :
    ∀ (hs : List α) (m : List (α × β)) (p : α × β),
    p ∈ hs.foldl (fun acc h => deleteA acc h) m → p ∈ m ∧ p.1 ∉ hs := by
  intro hs
  induction hs with
  | nil => exact fun m p h => ⟨h, by simp⟩
  | cons h hs ih =>
    intro m p hp
    rw [List.foldl_cons] at hp
    obtain ⟨hmem, hnin⟩ := ih (deleteA m h) p hp
    obtain ⟨hmem2, hne⟩ := mem_deleteA hmem
    refine ⟨hmem2, ?_⟩
    intro hin
    cases List.mem_cons.mp hin with
    | inl he => exact hne he
    | inr hm => exact hnin hm

theorem processHostname_event (resolve : String → Option String) (now : Nat)
    (h c : String) (st : DnsCaches) :
    ∀ e ∈ (processHostname resolve now h c st).1, e.client_id = c := by
  cases hlc : lookupA st.last_checks h with
  | some lc =>
    by_cases hskip : now - lc < DNS_CHECK_INTERVAL
    · simp [processHostname, hlc, hskip]
    · cases hres : resolve h with
      | none => simp [processHostname, hlc, hskip, hres]
      | some ip =>
        cases hprev : lookupA st.resolved_ips h with
        | none => simp [processHostname, hlc, hskip, hres, hprev]
        | some prev =>
          by_cases hne : prev ≠ ip <;>
            simp [processHostname, hlc, hskip, hres, hprev, hne]
  | none =>
    cases hres : resolve h with
    | none => simp [processHostname, hlc, hres]
    | some ip =>
      cases hprev : lookupA st.resolved_ips h with
      | none => simp [processHostname, hlc, hres, hprev]
      | some prev =>
        by_cases hne : prev ≠ ip <;>
          simp [processHostname, hlc, hres, hprev, hne]

theorem checkLoop_event_source (resolve : String → Option String) (now : Nat) :
    ∀ (regs : List (String × String)) (st : DnsCaches),
    ∀ e ∈ (checkHostnameChangesLoop resolve now regs st).1,
      ∃ h, (h, e.client_id) ∈ regs := by
  intro regs
  induction regs with
  | nil => intro st e he; simp [checkHostnameChangesLoop] at he
  | cons hc rest ih =>
    intro st e he
    obtain ⟨h, c⟩ := hc
    simp only [checkHostnameChangesLoop] at he
    rw [List.mem_append] at he
    cases he with
    | inl h1 =>
      have := processHostname_event resolve now h c st e h1
      exact ⟨h, by rw [this]; exact List.mem_cons_self _ _⟩
    | inr h2 =>
      obtain ⟨h', hm⟩ := ih (processHostname resolve now h c st).2 e h2
      exact ⟨h', List.mem_cons_of_mem _ hm⟩

/- ===== Claim C8 ===== -/

/-- C8: after `unregister_client_hostname`, no hostname mapped to the
    client remains registered, the cached resolved address and last
    check of every hostname that was mapped to it are removed, and no
    subsequent `check_hostname_changes` call emits an event referencing
    the client. -/
theorem C8_unregister_removes_client (st : DnsState) (cid : String) :
    (∀ p ∈ (unregister_client_hostname st cid).client_hostnames,
      ¬ p.2 = cid) ∧
    (∀ h, (h, cid) ∈ st.client_hostnames →
      lookupA (unregister_client_hostname st cid).caches.resolved_ips h =
        none ∧
      lookupA (unregister_client_hostname st cid).caches.last_checks h =
        none) ∧
    (∀ (resolve : String → Option String) (now : Nat),
      ∀ e ∈ (check_hostname_changes resolve now
        (unregister_client_hostname st cid)).1, ¬ e.client_id = cid) := by
  have ha : ∀ p ∈ (unregister_client_hostname st cid).client_hostnames,
      ¬ p.2 = cid := by
    intro p hp hpc
    obtain ⟨hmem, hnin⟩ := mem_foldl_delete _ _ p hp
    apply hnin
    apply List.mem_map_of_mem Prod.fst
    exact List.mem_filter.mpr ⟨hmem, by simp [hpc]⟩
  refine ⟨ha, ?_, ?_⟩
  · intro h hmem
    have hin : h ∈ (st.client_hostnames.filter
        (fun p => p.2 == cid)).map Prod.fst := by
      have hf : (h, cid) ∈ st.client_hostnames.filter
          (fun p => p.2 == cid) :=
        List.mem_filter.mpr ⟨hmem, by simp⟩
      exact List.mem_map_of_mem Prod.fst hf
    exact ⟨lookupA_foldl_delete_mem _ _ h hin,
      lookupA_foldl_delete_mem _ _ h hin⟩
  · intro resolve now e he hec
    obtain ⟨h', hm⟩ := checkLoop_event_source resolve now
      (unregister_client_hostname st cid).client_hostnames
      (unregister_client_hostname st cid).caches e he
    exact ha (h', e.client_id) hm hec

/-- C8 witness: the unregistration theorem applied at a concrete state
    with two clients; the unregistered client's cache entry is gone and
    a subsequent check emits nothing for it. -/
theorem C8_unregister_removes_client_witness :
    lookupA ((unregister_client_hostname
      ⟨[("h1", "c1"), ("h2", "c2")], [("c1", "n")],
        ⟨[("h1", "1.1.1.1")], [("h1", 5)]⟩⟩
      "c1").caches.resolved_ips) "h1" = none ∧
    (∀ e ∈ (check_hostname_changes (fun _ => some "9.9.9.9") 1000
      (unregister_client_hostname
        ⟨[("h1", "c1"), ("h2", "c2")], [("c1", "n")],
          ⟨[("h1", "1.1.1.1")], [("h1", 5)]⟩⟩
        "c1")).1, ¬ e.client_id = "c1") :=
  ⟨((C8_unregister_removes_client
      ⟨[("h1", "c1"), ("h2", "c2")], [("c1", "n")],
        ⟨[("h1", "1.1.1.1")], [("h1", 5)]⟩⟩
      "c1").2.1 "h1" (by decide)).1,
   (C8_unregister_removes_client
      ⟨[("h1", "c1"), ("h2", "c2")], [("c1", "n")],
        ⟨[("h1", "1.1.1.1")], [("h1", 5)]⟩⟩
      "c1").2.2 (fun _ => some "9.9.9.9") 1000⟩

/- ===== Supporting lemmas: the alert loop ===== -/

theorem sentCount_nil (p : List Char) : sentCount [] p = 0 := rfl

theorem sentCount_cons (a : List Char) (o : SendOutcome)
    (ds : List (List Char × SendOutcome)) (p : List Char) :
    sentCount ((a, o) :: ds) p =
      (if a = p ∧ o = SendOutcome.sent then 1 else 0) + sentCount ds p := by
  unfold sentCount
  by_cases h1 : a = p <;> by_cases h2 : o = SendOutcome.sent <;>
    simp [List.filter_cons, h1, h2] <;> omega

theorem sentCount_append (ds₁ ds₂ : List (List Char × SendOutcome))
    (p : List Char) :
    sentCount (ds₁ ++ ds₂) p = sentCount ds₁ p + sentCount ds₂ p := by
  unfold sentCount
  rw [List.filter_append, List.length_append]

theorem alertLoop_conn (send : List Char → SendOutcome) (now : Nat)
    (q : List Char) (rest : List (List Char × Bool))
    (la : List (List Char × Nat)) :
    checkAndAlertLoop send now ((q, true) :: rest) la =
      checkAndAlertLoop send now rest la := by
  simp [checkAndAlertLoop]

theorem alertLoop_gate_closed (send : List Char → SendOutcome) (now : Nat)
    (q : List Char) (rest : List (List Char × Bool))
    (la : List (List Char × Nat)) (t : Nat)
    (hg : lookupA la q = some t) (hng : ¬ now - t > ALERT_COOLDOWN) :
    checkAndAlertLoop send now ((q, false) :: rest) la =
      checkAndAlertLoop send now rest la := by
  simp [checkAndAlertLoop, hg, hng]

theorem alertLoop_gate_open (send : List Char → SendOutcome) (now : Nat)
    (q : List Char) (rest : List (List Char × Bool))
    (la : List (List Char × Nat))
    (hg : lookupA la q = none ∨
      ∃ t, lookupA la q = some t ∧ now - t > ALERT_COOLDOWN) :
    checkAndAlertLoop send now ((q, false) :: rest) la =
      ((q, send q) ::
        (checkAndAlertLoop send now rest
          (match send q with
           | .sent => insertA la q now
           | _ => la)).1,
       (checkAndAlertLoop send now rest
          (match send q with
           | .sent => insertA la q now
           | _ => la)).2) := by
  rcases hg with hg | ⟨t, hg, hgt⟩
  · simp [checkAndAlertLoop, hg]
  · simp [checkAndAlertLoop, hg, hgt]

theorem alertTick_props (send : List Char → SendOutcome) (now : Nat) :
    ∀ (peers : List (List Char × Bool)) (la : List (List Char × Nat))
      (p : List Char),
    sentCount (checkAndAlertLoop send now peers la).1 p ≤ 1 ∧
    (sentCount (checkAndAlertLoop send now peers la).1 p = 1 →
      lookupA (checkAndAlertLoop send now peers la).2 p = some now) ∧
    (sentCount (checkAndAlertLoop send now peers la).1 p = 0 →
      lookupA (checkAndAlertLoop send now peers la).2 p = lookupA la p) ∧
    (∀ t, lookupA la p = some t → ¬ now - t > ALERT_COOLDOWN →
      sentCount (checkAndAlertLoop send now peers la).1 p = 0) := by
  intro peers
  induction peers with
  | nil =>
    intro la p
    refine ⟨by simp [checkAndAlertLoop, sentCount], ?_, ?_, ?_⟩
    · intro h
      simp [checkAndAlertLoop, sentCount] at h
    · intro _
      rfl
    · intro t _ _
      rfl
  | cons qc rest ih =>
    intro la p
    obtain ⟨q, isConn⟩ := qc
    cases isConn with
    | true =>
      rw [alertLoop_conn]
      exact ih la p
    | false =>
      cases hg : lookupA la q with
      | some t0 =>
        by_cases hgt : now - t0 > ALERT_COOLDOWN
        · have hopen := alertLoop_gate_open send now q rest la
            (Or.inr ⟨t0, hg, hgt⟩)
          cases hsend : send q with
          | sent =>
            rw [hopen]
            simp only [hsend]
            by_cases hqp : q = p
            · subst hqp
              have hrest0 : sentCount (checkAndAlertLoop send now rest
                  (insertA la q now)).1 q = 0 :=
                (ih (insertA la q now) q).2.2.2 now
                  (lookupA_insertA_self la q now) (by omega)
              have hrestla := (ih (insertA la q now) q).2.2.1 hrest0
              refine ⟨?_, ?_, ?_, ?_⟩
              · rw [sentCount_cons, hrest0]
                simp
              · intro _
                rw [hrestla, lookupA_insertA_self]
              · intro h0
                rw [sentCount_cons, hrest0, if_pos ⟨rfl, rfl⟩] at h0
                cases h0
              · intro t hla hno
                rw [hg] at hla
                injection hla with he
                subst he
                exact absurd hgt hno
            · have hnand : ¬ (q = p ∧ SendOutcome.sent = SendOutcome.sent) :=
                fun hand => hqp hand.1
              have hlap : lookupA (insertA la q now) p = lookupA la p :=
                lookupA_insertA_ne la q p now (fun he => hqp he.symm)
              have hi := ih (insertA la q now) p
              refine ⟨?_, ?_, ?_, ?_⟩
              · rw [sentCount_cons, if_neg hnand]
                simpa using hi.1
              · intro h1
                rw [sentCount_cons, if_neg hnand] at h1
                simp at h1
                exact hi.2.1 h1
              · intro h0
                rw [sentCount_cons, if_neg hnand] at h0
                simp at h0
                rw [hi.2.2.1 h0, hlap]
              · intro t hla hno
                rw [sentCount_cons, if_neg hnand]
                have h4 := hi.2.2.2 t (by rw [hlap]; exact hla) hno
                simp [h4]
          | sendFailed =>
            rw [hopen]
            simp only [hsend]
            have hnand : ¬ (q = p ∧ SendOutcome.sendFailed = SendOutcome.sent) :=
              fun hand => by cases hand.2
            have hi := ih la p
            refine ⟨?_, ?_, ?_, ?_⟩
            · rw [sentCount_cons, if_neg hnand]
              simpa using hi.1
            · intro h1
              rw [sentCount_cons, if_neg hnand] at h1
              simp at h1
              exact hi.2.1 h1
            · intro h0
              rw [sentCount_cons, if_neg hnand] at h0
              simp at h0
              exact hi.2.2.1 h0
            · intro t hla hno
              rw [sentCount_cons, if_neg hnand]
              simp [hi.2.2.2 t hla hno]
          | sendRaised =>
            rw [hopen]
            simp only [hsend]
            have hnand : ¬ (q = p ∧ SendOutcome.sendRaised = SendOutcome.sent) :=
              fun hand => by cases hand.2
            have hi := ih la p
            refine ⟨?_, ?_, ?_, ?_⟩
            · rw [sentCount_cons, if_neg hnand]
              simpa using hi.1
            · intro h1
              rw [sentCount_cons, if_neg hnand] at h1
              simp at h1
              exact hi.2.1 h1
            · intro h0
              rw [sentCount_cons, if_neg hnand] at h0
              simp at h0
              exact hi.2.2.1 h0
            · intro t hla hno
              rw [sentCount_cons, if_neg hnand]
              simp [hi.2.2.2 t hla hno]
        · rw [alertLoop_gate_closed send now q rest la t0 hg hgt]
          exact ih la p
      | none =>
        have hopen := alertLoop_gate_open send now q rest la (Or.inl hg)
        cases hsend : send q with
        | sent =>
          rw [hopen]
          simp only [hsend]
          by_cases hqp : q = p
          · subst hqp
            have hrest0 : sentCount (checkAndAlertLoop send now rest
                (insertA la q now)).1 q = 0 :=
              (ih (insertA la q now) q).2.2.2 now
                (lookupA_insertA_self la q now) (by omega)
            have hrestla := (ih (insertA la q now) q).2.2.1 hrest0
            refine ⟨?_, ?_, ?_, ?_⟩
            · rw [sentCount_cons, hrest0]
              simp
            · intro _
              rw [hrestla, lookupA_insertA_self]
            · intro h0
              rw [sentCount_cons, hrest0, if_pos ⟨rfl, rfl⟩] at h0
              cases h0
            · intro t hla hno
              rw [hg] at hla
              cases hla
          · have hnand : ¬ (q = p ∧ SendOutcome.sent = SendOutcome.sent) :=
              fun hand => hqp hand.1
            have hlap : lookupA (insertA la q now) p = lookupA la p :=
              lookupA_insertA_ne la q p now (fun he => hqp he.symm)
            have hi := ih (insertA la q now) p
            refine ⟨?_, ?_, ?_, ?_⟩
            · rw [sentCount_cons, if_neg hnand]
              simpa using hi.1
            · intro h1
              rw [sentCount_cons, if_neg hnand] at h1
              simp at h1
              exact hi.2.1 h1
            · intro h0
              rw [sentCount_cons, if_neg hnand] at h0
              simp at h0
              rw [hi.2.2.1 h0, hlap]
            · intro t hla hno
              rw [sentCount_cons, if_neg hnand]
              have h4 := hi.2.2.2 t (by rw [hlap]; exact hla) hno
              simp [h4]
        | sendFailed =>
          rw [hopen]
          simp only [hsend]
          have hnand : ¬ (q = p ∧ SendOutcome.sendFailed = SendOutcome.sent) :=
            fun hand => by cases hand.2
          have hi := ih la p
          refine ⟨?_, ?_, ?_, ?_⟩
          · rw [sentCount_cons, if_neg hnand]
            simpa using hi.1
          · intro h1
            rw [sentCount_cons, if_neg hnand] at h1
            simp at h1
            exact hi.2.1 h1
          · intro h0
            rw [sentCount_cons, if_neg hnand] at h0
            simp at h0
            exact hi.2.2.1 h0
          · intro t hla hno
            rw [sentCount_cons, if_neg hnand]
            simp [hi.2.2.2 t hla hno]
        | sendRaised =>
          rw [hopen]
          simp only [hsend]
          have hnand : ¬ (q = p ∧ SendOutcome.sendRaised = SendOutcome.sent) :=
            fun hand => by cases hand.2
          have hi := ih la p
          refine ⟨?_, ?_, ?_, ?_⟩
          · rw [sentCount_cons, if_neg hnand]
            simpa using hi.1
          · intro h1
            rw [sentCount_cons, if_neg hnand] at h1
            simp at h1
            exact hi.2.1 h1
          · intro h0
            rw [sentCount_cons, if_neg hnand] at h0
            simp at h0
            exact hi.2.2.1 h0
          · intro t hla hno
            rw [sentCount_cons, if_neg hnand]
            simp [hi.2.2.2 t hla hno]

theorem runTicks_blocked (p : List Char) (a : Nat) :
    ∀ (ticks : List AlertTick) (la : List (List Char × Nat)) (t0 : Nat),
    (∀ tk ∈ ticks, a ≤ tk.now ∧ tk.now ≤ a + ALERT_COOLDOWN) →
    lookupA la p = some t0 → a ≤ t0 →
    sentCount (runAlertTicks ticks la).1 p = 0 ∧
    lookupA (runAlertTicks ticks la).2 p = some t0 := by
  intro ticks
  induction ticks with
  | nil =>
    intro la t0 _ hla _
    exact ⟨rfl, hla⟩
  | cons tk ticks ih =>
    intro la t0 hall hla ht0a
    have hwin := hall tk (List.mem_cons_self _ _)
    have hno : ¬ tk.now - t0 > ALERT_COOLDOWN := by omega
    have hprops := alertTick_props tk.send tk.now tk.peers la p
    have h0 := hprops.2.2.2 t0 hla hno
    have hstate := hprops.2.2.1 h0
    simp only [runAlertTicks]
    rw [sentCount_append, h0]
    have hrest := ih (checkAndAlertLoop tk.send tk.now tk.peers la).2 t0
      (fun x hx => hall x (List.mem_cons_of_mem _ hx))
      (by rw [hstate]; exact hla) ht0a
    exact ⟨by rw [hrest.1], hrest.2⟩

theorem runTicks_at_most_one (p : List Char) (a : Nat) :
    ∀ (ticks : List AlertTick) (la : List (List Char × Nat)),
    (∀ tk ∈ ticks, a ≤ tk.now ∧ tk.now ≤ a + ALERT_COOLDOWN) →
    sentCount (runAlertTicks ticks la).1 p ≤ 1 := by
  intro ticks
  induction ticks with
  | nil =>
    intro la _
    simp [runAlertTicks, sentCount]
  | cons tk ticks ih =>
    intro la hall
    have hwin := hall tk (List.mem_cons_self _ _)
    have htail : ∀ tk2 ∈ ticks, a ≤ tk2.now ∧ tk2.now ≤ a + ALERT_COOLDOWN :=
      fun x hx => hall x (List.mem_cons_of_mem _ hx)
    have hprops := alertTick_props tk.send tk.now tk.peers la p
    simp only [runAlertTicks]
    rw [sentCount_append]
    by_cases h0 : sentCount (checkAndAlertLoop tk.send tk.now tk.peers la).1
        p = 0
    · rw [h0]
      simpa using ih (checkAndAlertLoop tk.send tk.now tk.peers la).2 htail
    · have h1 : sentCount (checkAndAlertLoop tk.send tk.now tk.peers la).1
          p = 1 := by
        have := hprops.1
        omega
      have hstate := hprops.2.1 h1
      have hrest := runTicks_blocked p a ticks
        (checkAndAlertLoop tk.send tk.now tk.peers la).2 tk.now htail hstate
        hwin.1
      rw [h1, hrest.1]

theorem alert_dispatch_gate (send : List Char → SendOutcome) (now : Nat) :
    ∀ (peers : List (List Char × Bool)) (la : List (List Char × Nat)),
    (peers.map Prod.fst).Nodup →
    ∀ d ∈ (checkAndAlertLoop send now peers la).1,
      (d.1, false) ∈ peers ∧
      (lookupA la d.1 = none ∨
        ∃ t, lookupA la d.1 = some t ∧ now - t > ALERT_COOLDOWN) := by
  intro peers
  induction peers with
  | nil =>
    intro la _ d hd
    simp [checkAndAlertLoop] at hd
  | cons qc rest ih =>
    intro la hnd d hd
    obtain ⟨q, isConn⟩ := qc
    have hnd2 : (rest.map Prod.fst).Nodup := by
      rw [List.map_cons] at hnd
      exact (List.nodup_cons.mp hnd).2
    have hqnin : q ∉ rest.map Prod.fst := by
      rw [List.map_cons] at hnd
      exact (List.nodup_cons.mp hnd).1
    cases isConn with
    | true =>
      rw [alertLoop_conn] at hd
      obtain ⟨hm, hcond⟩ := ih la hnd2 d hd
      exact ⟨List.mem_cons_of_mem _ hm, hcond⟩
    | false =>
      cases hg : lookupA la q with
      | some t0 =>
        by_cases hgt : now - t0 > ALERT_COOLDOWN
        · rw [alertLoop_gate_open send now q rest la
            (Or.inr ⟨t0, hg, hgt⟩)] at hd
          cases List.mem_cons.mp hd with
          | inl he =>
            subst he
            exact ⟨List.mem_cons_self _ _, Or.inr ⟨t0, hg, hgt⟩⟩
          | inr hm =>
            obtain ⟨hmem, hcond⟩ := ih _ hnd2 d hm
            have hdq : ¬ d.1 = q := by
              intro he
              apply hqnin
              rw [← he]
              exact List.mem_map_of_mem Prod.fst hmem
            have hla2 : lookupA (match send q with
                | SendOutcome.sent => insertA la q now
                | _ => la) d.1 = lookupA la d.1 := by
              cases send q <;>
                simp [lookupA_insertA_ne la q d.1 now hdq]
            rw [hla2] at hcond
            exact ⟨List.mem_cons_of_mem _ hmem, hcond⟩
        · rw [alertLoop_gate_closed send now q rest la t0 hg hgt] at hd
          obtain ⟨hm, hcond⟩ := ih la hnd2 d hd
          exact ⟨List.mem_cons_of_mem _ hm, hcond⟩
      | none =>
        rw [alertLoop_gate_open send now q rest la (Or.inl hg)] at hd
        cases List.mem_cons.mp hd with
        | inl he =>
          subst he
          exact ⟨List.mem_cons_self _ _, Or.inl hg⟩
        | inr hm =>
          obtain ⟨hmem, hcond⟩ := ih _ hnd2 d hm
          have hdq : ¬ d.1 = q := by
            intro he
            apply hqnin
            rw [← he]
            exact List.mem_map_of_mem Prod.fst hmem
          have hla2 : lookupA (match send q with
              | SendOutcome.sent => insertA la q now
              | _ => la) d.1 = lookupA la d.1 := by
            cases send q <;>
              simp [lookupA_insertA_ne la q d.1 now hdq]
          rw [hla2] at hcond
          exact ⟨List.mem_cons_of_mem _ hmem, hcond⟩

/- ===== Claim C4 ===== -/

/-- C4: in `check_and_alert`, an alert is dispatched for a peer only if
    it was classified disconnected and either no last-alert time is
    recorded or the recorded time is strictly older than
    `ALERT_COOLDOWN`; the last-alert timestamp is updated exactly by a
    successful dispatch and is left unchanged by failed or raised
    dispatches; hence across any sequence of ticks whose instants all
    lie within one `ALERT_COOLDOWN` window, at most one successful alert
    is dispatched per peer. -/
theorem C4_alert_cooldown_dedup :
    (∀ (send : List Char → SendOutcome) (now : Nat)
       (peers : List (List Char × Bool)) (la : List (List Char × Nat)),
      (peers.map Prod.fst).Nodup →
      ∀ d ∈ (checkAndAlertLoop send now peers la).1,
        (d.1, false) ∈ peers ∧
        (lookupA la d.1 = none ∨
          ∃ t, lookupA la d.1 = some t ∧ now - t > ALERT_COOLDOWN)) ∧
    (∀ (send : List Char → SendOutcome) (now : Nat)
       (peers : List (List Char × Bool)) (la : List (List Char × Nat))
       (p : List Char),
      sentCount (checkAndAlertLoop send now peers la).1 p = 1 →
      lookupA (checkAndAlertLoop send now peers la).2 p = some now) ∧
    (∀ (send : List Char → SendOutcome) (now : Nat)
       (peers : List (List Char × Bool)) (la : List (List Char × Nat))
       (p : List Char),
      sentCount (checkAndAlertLoop send now peers la).1 p = 0 →
      lookupA (checkAndAlertLoop send now peers la).2 p = lookupA la p) ∧
    (∀ (p : List Char) (a : Nat) (ticks : List AlertTick)
       (la : List (List Char × Nat)),
      (∀ tk ∈ ticks, a ≤ tk.now ∧ tk.now ≤ a + ALERT_COOLDOWN) →
      sentCount (runAlertTicks ticks la).1 p ≤ 1) :=
  ⟨fun send now peers la hnd => alert_dispatch_gate send now peers la hnd,
   fun send now peers la p => (alertTick_props send now peers la p).2.1,
   fun send now peers la p => (alertTick_props send now peers la p).2.2.1,
   fun p a ticks la hall => runTicks_at_most_one p a ticks la hall⟩

/-- C4 witness: the cooldown theorem applied at two concrete ticks 100
    seconds apart inside one cooldown window, with a successful
    dispatcher: the timestamp is stored by the first tick and at most
    one successful alert occurs overall. -/
theorem C4_alert_cooldown_dedup_witness :
    lookupA (checkAndAlertLoop (fun _ => SendOutcome.sent) 100
      [(['p'], false)] []).2 ['p'] = some 100 ∧
    sentCount (runAlertTicks
      [⟨100, [(['p'], false)], fun _ => SendOutcome.sent⟩,
       ⟨200, [(['p'], false)], fun _ => SendOutcome.sent⟩] []).1 ['p'] ≤ 1 := by
  constructor
  · exact C4_alert_cooldown_dedup.2.1 (fun _ => SendOutcome.sent) 100
      [(['p'], false)] [] ['p'] (by decide)
  · refine C4_alert_cooldown_dedup.2.2.2 ['p'] 100
      [⟨100, [(['p'], false)], fun _ => SendOutcome.sent⟩,
       ⟨200, [(['p'], false)], fun _ => SendOutcome.sent⟩] [] ?_
    intro tk htk
    simp only [List.mem_cons, List.not_mem_nil, or_false] at htk
    rcases htk with rfl | rfl
    · exact ⟨by decide, by decide⟩
    · exact ⟨by decide, by decide⟩

end WgGateway
